import Mathlib

/-!
Verification development for the OpenStreetMap shaping pipeline of
data_additional.py.  The Python function shape_element (and its helper
regular expressions) are shallowly embedded below; strings are modelled
as lists of characters, dictionaries as insertion-ordered association
lists with overwrite-in-place semantics, and Python exceptions as an
explicit error type threaded through Except.
-/

set_option maxRecDepth 10000

/-- Strings are modelled as lists of characters. -/
abbrev Str := List Char

/-- Convenience conversion from a Lean string literal to the model type. -/
def str (s : String) : Str := s.data

/-- Dictionaries whose keys and values are strings are modelled as
insertion-ordered association lists. -/
abbrev Dict := List (Str × Str)

/-- Insertion with Python dict semantics: an existing key keeps its
position and gets the new value, a new key is appended at the end. -/
def alInsert : Dict → Str → Str → Dict
  | [], k, v => [(k, v)]
  | (k0, v0) :: m, k, v =>
      if k0 = k then (k, v) :: m else (k0, v0) :: alInsert m k v

/-- Dictionary lookup. -/
def alLookup : Dict → Str → Option Str
  | [], _ => none
  | (k0, v0) :: m, k => if k0 = k then some v0 else alLookup m k

/-- Python has_key. -/
def alHasKey (m : Dict) (k : Str) : Bool := (alLookup m k).isSome

/-- Model of unicodedata.normalize applied characterwise: NFKC collapses
full-width digits and the ideographic space to their ASCII forms.  (The
real NFKC touches further compatibility characters; the model restricts
it to the character classes the program and its data exercise, which is
enough to separate normalized from raw values.) -/
def nfkcChar (c : Char) : Char :=
  if c = '０' then '0' else if c = '１' then '1' else if c = '２' then '2'
  else if c = '３' then '3' else if c = '４' then '4' else if c = '５' then '5'
  else if c = '６' then '6' else if c = '７' then '7' else if c = '８' then '8'
  else if c = '９' then '9' else if c = '　' then ' ' else c

/-- Model of unicodedata.normalize with the NFKC form on a whole string. -/
def nfkc (s : Str) : Str := s.map nfkcChar

/-- Characters of the problemchars character class from the source:
punctuation, the quote characters, and whitespace including the
full-width space. -/
def isProblemChar (c : Char) : Bool :=
  c ∈ ['=', '+', '/', '&', '<', '>', ';', '\'', '\"', '?', '%', '#', '$',
       '@', ',', '.', ' ', '\t', '\r', '\n', '\x0b', '\x0c', '　']

/-- problemchars.search: does the key contain a problematic character? -/
def problemchars (s : Str) : Bool := s.any isProblemChar

/-- Lower-case letter or underscore, the segment class of lower_colon. -/
def isLowerUnd (c : Char) : Bool := ('a' ≤ c ∧ c ≤ 'z') ∨ c = '_'

/-- lower_colon.search on an anchored pattern: the whole string must be a
lower/underscore segment, a colon, and a second lower/underscore
segment. -/
def lower_colon (s : Str) : Bool :=
  let a := s.takeWhile (fun c => c ≠ ':')
  match s.dropWhile (fun c => c ≠ ':') with
  | ':' :: b => a.all isLowerUnd && b.all isLowerUnd
  | _ => false

/-- Last index at which a character occurs in a list, if any. -/
def lastIdxOf (t : Char) : Str → Option Nat
  | [] => none
  | c :: s =>
      match lastIdxOf t s with
      | some j => some (j + 1)
      | none => if c = t then some 0 else none

/-- addr_problemchars.search for the pattern of a parenthesized span or
the literal yes: returns the leftmost match, with the greedy span
running to the last closing parenthesis on the same line. -/
def addr_problemchars : Str → Option Str
  | [] => none
  | c :: s =>
      if c = '(' then
        let run := s.takeWhile (fun x => x ≠ '\n')
        match lastIdxOf ')' run with
        | some j => some ('(' :: run.take (j + 1))
        | none => addr_problemchars s
      else if ['y', 'e', 's'].isPrefixOf (c :: s) then some ['y', 'e', 's']
      else addr_problemchars s

/-- addr_semicolon.search for a semicolon followed by the rest of the
line: returns the matched span from the first semicolon whose tail
reaches the end of the value (a trailing newline is tolerated by the
dollar anchor). -/
def addr_semicolon : Str → Option Str
  | [] => none
  | c :: s =>
      if c = ';' ∧ (s.dropWhile (fun x => x ≠ '\n') = [] ∨
                    s.dropWhile (fun x => x ≠ '\n') = ['\n']) then
        some (c :: s.takeWhile (fun x => x ≠ '\n'))
      else addr_semicolon s

/-- Whitespace class of the addr_space character class: ASCII whitespace
or the full-width space. -/
def isSpaceChar (c : Char) : Bool :=
  c ∈ [' ', '\t', '\n', '\r', '\x0b', '\x0c', '　']

/-- addr_space.search: the first whitespace character of the value. -/
def addr_space : Str → Option Char
  | [] => none
  | c :: s => if isSpaceChar c then some c else addr_space s

/-- ASCII digit. -/
def isDigitChar (c : Char) : Bool := '0' ≤ c ∧ c ≤ '9'

/-- The dollar anchor of an anchored pattern also matches just before
one trailing newline: a match against the whole value is a match
against the value with one final newline removed. -/
def dollarChop (s : Str) : Str :=
  if s.getLast? = some '\n' then s.dropLast else s

/-- re_postcode: the value is exactly three digits, a hyphen, and four
digits, up to the trailing newline the dollar anchor tolerates. -/
def re_postcode (s : Str) : Bool :=
  match dollarChop s with
  | [a, b, c, h, d, e, f, g] =>
      isDigitChar a && isDigitChar b && isDigitChar c && h = '-' &&
      isDigitChar d && isDigitChar e && isDigitChar f && isDigitChar g
  | _ => false

/-- ASCII whitespace, the backslash-s class of the phone pattern. -/
def isAsciiSpace (c : Char) : Bool :=
  c ∈ [' ', '\t', '\n', '\r', '\x0b', '\x0c']

/-- re_phonenumber: the value is exactly 0NN-NNN-NNNN, or 81 followed
by one whitespace character and one or more digits, up to the trailing
newline the dollar anchors tolerate. -/
def re_phonenumber (s : Str) : Bool :=
  (match dollarChop s with
   | ['0', a, b, h1, c, d, e, h2, f, g, i, j] =>
       isDigitChar a && isDigitChar b && h1 = '-' &&
       isDigitChar c && isDigitChar d && isDigitChar e && h2 = '-' &&
       isDigitChar f && isDigitChar g && isDigitChar i && isDigitChar j
   | _ => false)
  ||
  (match dollarChop s with
   | '8' :: '1' :: w :: rest =>
       isAsciiSpace w && !rest.isEmpty && rest.all isDigitChar
   | _ => false)

/-- re_city.search for a non-fu sequence ending in shi: leftmost match,
greedy up to the last shi character inside the fu-free run. -/
def re_city : Str → Option Str
  | [] => none
  | c :: s =>
      if c = '府' then re_city s
      else
        let run := (c :: s).takeWhile (fun x => x ≠ '府')
        match lastIdxOf '市' run with
        | some j => if 1 ≤ j then some (run.take (j + 1)) else re_city s
        | none => re_city s

/-- re_ward.search for a non-shi sequence ending in ku followed by the
rest of the line: leftmost match; the greedy tail runs from the last ku
inside the shi-free run to the next newline or the end. -/
def re_ward : Str → Option Str
  | [] => none
  | c :: s =>
      if c = '市' then re_ward s
      else
        let run := (c :: s).takeWhile (fun x => x ≠ '市')
        match lastIdxOf '区' run with
        | some j =>
            if 1 ≤ j then
              some ((c :: s).take (j + 1) ++
                    (((c :: s).drop (j + 1)).takeWhile (fun x => x ≠ '\n')))
            else re_ward s
        | none => re_ward s

/-- Numeric value of a digit list. -/
def digitsToNat (l : Str) : Nat := l.foldl (fun a c => a * 10 + (c.toNat - 48)) 0

/-- Model of the Python float constructor on the decimal forms the data
uses: optional sign, integer digits, optional point and fraction digits,
at least one digit overall; anything else fails.  (Exponent and special
forms are outside the model.) -/
def parseFloat (s : Str) : Option ℚ :=
  let sgnAndBody : ℤ × Str :=
    match s with
    | '-' :: t => (-1, t)
    | '+' :: t => (1, t)
    | t => (1, t)
  let sgn := sgnAndBody.1
  let body := sgnAndBody.2
  let ip := body.takeWhile isDigitChar
  match body.drop ip.length with
  | [] => if ip.isEmpty then none else some ((sgn : ℚ) * (digitsToNat ip : ℚ))
  | '.' :: fr =>
      let fp := fr.takeWhile isDigitChar
      if !(fr.drop fp.length).isEmpty then none
      else if ip.isEmpty && fp.isEmpty then none
      else some ((sgn : ℚ) * ((digitsToNat ip : ℚ) +
                 (digitsToNat fp : ℚ) / ((10 : ℚ) ^ fp.length)))
  | _ => none

/-- Python truthiness of an optional string: None and the empty string
are falsy. -/
def truthy : Option Str → Bool
  | none => false
  | some s => !s.isEmpty

/-- Python exceptions the shaping function can raise. -/
inductive ShapeErr where
  /-- ValueError from the float constructor, the NumericParseError of the
  specification. -/
  | valueError
  /-- KeyError from indexing a dictionary at an absent key. -/
  | keyError
  /-- TypeError from item assignment on a value that is not a
  dictionary (a string stored under a reserved key). -/
  | typeError
  /-- AttributeError from calling has_key or append on a value that is
  not a dictionary or list. -/
  | attributeError
deriving DecidableEq, Repr

instance {e a : Type} [DecidableEq e] [DecidableEq a] : DecidableEq (Except e a)
  | .ok x, .ok y => decidable_of_iff (x = y) (by simp)
  | .ok _, .error _ => isFalse (by simp)
  | .error _, .ok _ => isFalse (by simp)
  | .error x, .error y => decidable_of_iff (x = y) (by simp)

/-- The CREATED array of the source. -/
def CREATED : List Str :=
  [str "version", str "changeset", str "timestamp", str "user", str "uid"]

/-- A parsed input element: tag name, attributes in iteration order,
nested key/value tag children in document order, and nd reference
children in document order. -/
structure Element where
  tag : Str
  attrib : List (Str × Str)
  tags : List (Str × Str)
  nds : List Str
deriving DecidableEq, Repr

/-- The record produced by shaping one element.  The Python node
dictionary is modelled by disjoint components: the reserved keys type,
created, pos, address, type_m and node_refs, and the map of remaining
plain top-level fields.  This split is faithful exactly on elements
whose attribute and nested-tag keys avoid the reserved names; the
shared-dictionary model below (NodeD, shape_elementD) drops the split
and keeps the collision and crash paths of the source. -/
structure Node where
  type : Str
  created : Option Dict := none
  pos : Option (ℚ × ℚ) := none
  fields : Dict := []
  type_m : Option Str := none
  address : Option Dict := none
  node_refs : Option (List Str) := none
deriving DecidableEq, Repr

/-- State of the attribute loop: the record under construction and the
lat / lon locals. -/
structure AttrSt where
  node : Node
  lat : Option Str
  lon : Option Str
deriving DecidableEq, Repr

/-- The pos update of the lat / lon branch: once both captured
coordinates are truthy they are parsed as floats (a parse failure
raises ValueError) and stored as the pos pair. -/
def checkLatLon (st : AttrSt) : Except ShapeErr AttrSt :=
  if truthy st.lat ∧ truthy st.lon then
    match parseFloat (st.lat.getD []), parseFloat (st.lon.getD []) with
    | some la, some lo =>
        Except.ok { st with node := { st.node with pos := some (la, lo) } }
    | _, _ => Except.error ShapeErr.valueError
  else Except.ok st

/-- One iteration of the top-level attribute dispatch: CREATED
attributes go under created, lat / lon are captured and checked, and
anything else becomes a plain normalized top-level field. -/
def processAttr (st : AttrSt) (atr v : Str) : Except ShapeErr AttrSt :=
  if atr ∈ CREATED then
    Except.ok { st with node :=
      { st.node with created := some (alInsert (st.node.created.getD []) atr (nfkc v)) } }
  else if atr = str "lat" ∨ atr = str "lon" then
    checkLatLon
      (if atr = str "lat" then { st with lat := some v }
       else if atr = str "lon" then { st with lon := some v }
       else st)
  else
    Except.ok { st with node :=
      { st.node with fields := alInsert st.node.fields atr (nfkc v) } }

/-- Routing of one nested key/value tag: drop on problematic characters,
an addr: key goes into the address dictionary unless the remainder has a
second colon-delimited component, a type key is renamed to type_m, and
everything else becomes a plain top-level field. -/
def routeTag (n : Node) (tk tv : Str) : Node :=
  if problemchars tk then n
  else if (str "addr:").isPrefixOf tk then
    let adCont := tk.drop 5
    if lower_colon adCont then n
    else { n with address := some (alInsert (n.address.getD []) adCont (nfkc tv)) }
  else if tk = str "type" then { n with type_m := some (nfkc tv) }
  else { n with fields := alInsert n.fields tk (nfkc tv) }

/-- The inner tag loop: routes every nested tag in document order. -/
def routeTags (n : Node) : List (Str × Str) → Node
  | [] => n
  | (k, v) :: ts => routeTags (routeTag n k v) ts

/-- The attribute loop of shape_element.  Faithful to the source, where
the nested tag loop is indented inside the attribute loop: each
attribute is dispatched and then the whole tag list is routed again. -/
def shapeAttrs (tags : List (Str × Str)) (st : AttrSt) :
    List (Str × Str) → Except ShapeErr AttrSt
  | [] => Except.ok st
  | (a, v) :: rest => do
      let st1 ← processAttr st a v
      shapeAttrs tags { st1 with node := routeTags st1.node tags } rest

/-- Bounded scanner behind the replace model: at a left-to-right
occurrence of old, drop it and continue after it; fuel bounds the
recursion and is always called with at least the length of the text. -/
def removeAllFuel (old : Str) : Nat → Str → Str
  | 0, s => s
  | _ + 1, [] => []
  | f + 1, c :: s =>
      if old ≠ [] ∧ old.isPrefixOf (c :: s) then
        removeAllFuel old f (s.drop (old.length - 1))
      else c :: removeAllFuel old f s

/-- Model of the Python replace of old by the empty string: every
left-to-right non-overlapping occurrence of old is removed. -/
def removeAll (old s : Str) : Str := removeAllFuel old s.length s

/-- State of the address-cleaning pass: the address dictionary and the
optional created dictionary of the record. -/
structure CleanSt where
  address : Dict
  created : Option Dict
deriving DecidableEq, Repr

/-- Punctuation step of the generic cleaning: replace the matched
parenthesized span or yes by the empty string (all occurrences). -/
def gen1 (addr : Dict) (key text0 : Str) : Str × Dict :=
  match addr_problemchars text0 with
  | some pc => (removeAll pc text0, alInsert addr key (removeAll pc text0))
  | none => (text0, addr)

/-- Semicolon step: the search runs on the original value, the
replacement on the current one. -/
def gen2 (orig : Str) (addr : Dict) (key text : Str) : Str × Dict :=
  match addr_semicolon orig with
  | some sc => (removeAll sc text, alInsert addr key (removeAll sc text))
  | none => (text, addr)

/-- Whitespace step: the search runs on the original value, the
replacement removes every occurrence of the found character. -/
def gen3 (orig : Str) (addr : Dict) (key text : Str) : Str × Dict :=
  match addr_space orig with
  | some c => (removeAll [c] text, alInsert addr key (removeAll [c] text))
  | none => (text, addr)

/-- The three generic cleaning steps applied to a value alone (all three
searches run on the original value, the replacements chain). -/
def genericClean (t0 : Str) : Str :=
  let t1 := match addr_problemchars t0 with
    | some pc => removeAll pc t0
    | none => t0
  let t2 := match addr_semicolon t0 with
    | some sc => removeAll sc t1
    | none => t1
  match addr_space t0 with
  | some c => removeAll [c] t2
  | none => t2

/-- City-suffix part of the city rule: keep exactly the matched span,
or empty the field when nothing matches. -/
def cityStepA (addr : Dict) (key text : Str) : Str × Dict :=
  match re_city text with
  | some cg => (cg, alInsert addr key cg)
  | none => (text, alInsert addr key [])

/-- Ward part of the city rule: a ward match of the cleaned value is
prepended to the street entry (created when absent) and becomes the
current text. -/
def cityStepB (wardC : Option Str) (p : Str × Dict) : Str × Dict :=
  match wardC with
  | some wg =>
      (wg, match alLookup p.2 (str "street") with
           | some sv => alInsert p.2 (str "street") (wg ++ sv)
           | none => alInsert p.2 (str "street") wg)
  | none => p

/-- City rule: keep exactly the city-suffix match (or empty the field),
and independently prepend a ward match of the same cleaned value to the
street field.  Both searches run on the value cleaned by the generic
steps, before either updates it. -/
def cityStep (addr : Dict) (key text : Str) : Str × Dict :=
  cityStepB (re_ward text) (cityStepA addr key text)

/-- Housenumber / street rule: a phone-shaped value moves into
created.phone (indexing node at created raises KeyError when no created
dictionary exists), else a postcode-shaped value moves into
address.postcode; the source field is cleared on a move. -/
def houseStep (st : CleanSt) (key text : Str) : Except ShapeErr CleanSt :=
  if re_phonenumber text then
    match st.created with
    | none => Except.error ShapeErr.keyError
    | some cr =>
        if alHasKey cr (str "phone") then Except.ok st
        else Except.ok { address := alInsert st.address key [],
                         created := some (alInsert cr (str "phone") text) }
  else if re_postcode text then
    if alHasKey st.address (str "postcode") then Except.ok st
    else
      let withPost := alInsert st.address (str "postcode")
        (text.take 3 ++ (text.drop 4).take 4)
      Except.ok { address := alInsert withPost key [], created := st.created }
  else Except.ok st

/-- The three generic steps chained on the dictionary: all three
searches run on the original value and each replacement updates the
current text and the dictionary entry. -/
def cleanGenericSteps (addr : Dict) (key text0 : Str) : Str × Dict :=
  let r1 := gen1 addr key text0
  let r2 := gen2 text0 r1.2 key r1.1
  gen3 text0 r2.2 key r2.1

/-- Generic steps followed by the city rule (which runs only for the
city key). -/
def cleanUpToCity (addr : Dict) (key text0 : Str) : Str × Dict :=
  let r3 := cleanGenericSteps addr key text0
  if key = str "city" then cityStep r3.2 key r3.1 else r3

/-- Postcode rule: for the postcode key a hyphenated postcode is
rewritten with the hyphen dropped. -/
def postStepIfPostcode (key : Str) (p : Str × Dict) : Dict :=
  if key = str "postcode" ∧ re_postcode p.1 then
    alInsert p.2 key (p.1.take 3 ++ (p.1.drop 4).take 4)
  else p.2

/-- Cleaning of one of the five recognized address keys: generic steps,
then the city, postcode and housenumber / street specific rules. -/
def cleanKey (st : CleanSt) (key : Str) : Except ShapeErr CleanSt :=
  match alLookup st.address key with
  | none => Except.ok st
  | some text0 =>
      let r4 := cleanUpToCity st.address key text0
      let addr5 := postStepIfPostcode key r4
      if key = str "housenumber" ∨ key = str "street" then
        houseStep { address := addr5, created := st.created } key r4.1
      else Except.ok { address := addr5, created := st.created }

/-- The five recognized address keys, in the order the source visits
them. -/
def address_key : List Str :=
  [str "city", str "street", str "housenumber", str "housename", str "postcode"]

/-- The cleaning loop over the recognized keys. -/
def cleanKeys (st : CleanSt) : List Str → Except ShapeErr CleanSt
  | [] => Except.ok st
  | k :: ks => do
      let st1 ← cleanKey st k
      cleanKeys st1 ks

/-- The address-cleaning pass of shape_element: runs only when the
record has an address dictionary. -/
def cleanAddress (n : Node) : Except ShapeErr Node :=
  match n.address with
  | none => Except.ok n
  | some addr => do
      let st ← cleanKeys { address := addr, created := n.created } address_key
      Except.ok { n with address := some st.address, created := st.created }

/-- Appending one nd reference: the list is created on first use and the
raw reference string is appended. -/
def addRef (n : Node) (r : Str) : Node :=
  { n with node_refs := some ((n.node_refs.getD []).concat r) }

/-- The nd loop of shape_element: for way elements every nd reference is
appended in document order. -/
def addNodeRefs (n : Node) (e : Element) : Node :=
  if e.tag = str "way" then e.nds.foldl addRef n else n

/-- shape_element: accepts node and way elements, shapes attributes and
nested tags, cleans the address dictionary, and collects way
references; other elements yield none. -/
def shape_element (e : Element) : Except ShapeErr (Option Node) :=
  if e.tag = str "node" ∨ e.tag = str "way" then do
    let st ← shapeAttrs e.tags { node := { type := e.tag }, lat := none, lon := none } e.attrib
    let n ← cleanAddress st.node
    Except.ok (some (addNodeRefs n e))
  else Except.ok none

/-! The shared-dictionary model.  The source keeps one dictionary
node, so an attribute or nested tag named after a reserved key
(created, pos, address, node_refs, type, type_m) writes a plain string
into the same slot that the reserved accesses use: a later
dictionary-style access on that string raises TypeError (item
assignment) or AttributeError (has_key, append).  The definitions
below re-run the shaping over one shared dictionary whose values carry
their Python type, keeping those collision and crash paths. -/

/-- A value stored in the shared node dictionary: a plain string, a
string dictionary (created or address), the pos pair of floats, or the
node_refs list. -/
inductive Val where
  | s (v : Str)
  | d (m : Dict)
  | posv (la lo : ℚ)
  | refs (l : List Str)
deriving DecidableEq, Repr

/-- The shared node dictionary of the source. -/
abbrev NodeD := List (Str × Val)

/-- Insertion with Python dict semantics, over typed values. -/
def ndInsert : NodeD → Str → Val → NodeD
  | [], k, v => [(k, v)]
  | (k0, v0) :: m, k, v =>
      if k0 = k then (k, v) :: m else (k0, v0) :: ndInsert m k v

/-- Lookup in the shared dictionary. -/
def ndLookup : NodeD → Str → Option Val
  | [], _ => none
  | (k0, v0) :: m, k => if k0 = k then some v0 else ndLookup m k

/-- Python has_key on the shared dictionary. -/
def ndHasKey (n : NodeD) (k : Str) : Bool := (ndLookup n k).isSome

/-- State of the attribute loop over the shared dictionary. -/
structure AttrStD where
  node : NodeD
  lat : Option Str
  lon : Option Str
deriving DecidableEq, Repr

/-- The pos update of the lat / lon branch: the parsed pair is written
at the pos key of the shared dictionary (a plain assignment, which
overwrites whatever the slot held). -/
def checkLatLonD (st : AttrStD) : Except ShapeErr AttrStD :=
  if truthy st.lat ∧ truthy st.lon then
    match parseFloat (st.lat.getD []), parseFloat (st.lon.getD []) with
    | some la, some lo =>
        Except.ok { st with node := ndInsert st.node (str "pos") (Val.posv la lo) }
    | _, _ => Except.error ShapeErr.valueError
  else Except.ok st

/-- One attribute over the shared dictionary: a CREATED attribute is
stored into the dictionary at the created key, created with has_key
when absent; if that slot holds a non-dictionary the item assignment
raises TypeError.  Anything that is not lat or lon is a plain
assignment at the attribute name. -/
def processAttrD (st : AttrStD) (atr v : Str) : Except ShapeErr AttrStD :=
  if atr ∈ CREATED then
    match ndLookup st.node (str "created") with
    | none =>
        let n2 := ndInsert st.node (str "created") (Val.d (alInsert [] atr (nfkc v)))
        Except.ok { st with node := n2 }
    | some (Val.d m) =>
        let n2 := ndInsert st.node (str "created") (Val.d (alInsert m atr (nfkc v)))
        Except.ok { st with node := n2 }
    | some _ => Except.error ShapeErr.typeError
  else if atr = str "lat" ∨ atr = str "lon" then
    checkLatLonD
      (if atr = str "lat" then { st with lat := some v }
       else if atr = str "lon" then { st with lon := some v }
       else st)
  else
    Except.ok { st with node := ndInsert st.node atr (Val.s (nfkc v)) }

/-- One nested tag over the shared dictionary: an addr: key is stored
into the dictionary at the address key, created with has_key when
absent; if that slot holds a non-dictionary the item assignment raises
TypeError.  A type key is a plain assignment at type_m, everything
else at the tag key itself. -/
def routeTagD (n : NodeD) (tk tv : Str) : Except ShapeErr NodeD :=
  if problemchars tk then Except.ok n
  else if (str "addr:").isPrefixOf tk then
    if lower_colon (tk.drop 5) then Except.ok n
    else
      match ndLookup n (str "address") with
      | none =>
          Except.ok (ndInsert n (str "address") (Val.d (alInsert [] (tk.drop 5) (nfkc tv))))
      | some (Val.d m) =>
          Except.ok (ndInsert n (str "address") (Val.d (alInsert m (tk.drop 5) (nfkc tv))))
      | some _ => Except.error ShapeErr.typeError
  else if tk = str "type" then Except.ok (ndInsert n (str "type_m") (Val.s (nfkc tv)))
  else Except.ok (ndInsert n tk (Val.s (nfkc tv)))

/-- The inner tag loop over the shared dictionary. -/
def routeTagsD (n : NodeD) : List (Str × Str) → Except ShapeErr NodeD
  | [] => Except.ok n
  | (k, v) :: ts =>
      match routeTagD n k v with
      | Except.error er => Except.error er
      | Except.ok n2 => routeTagsD n2 ts

/-- The attribute loop over the shared dictionary, with the nested tag
loop indented inside it as in the source. -/
def shapeAttrsD (tags : List (Str × Str)) (st : AttrStD) :
    List (Str × Str) → Except ShapeErr AttrStD
  | [] => Except.ok st
  | (a, v) :: rest =>
      match processAttrD st a v with
      | Except.error er => Except.error er
      | Except.ok st1 =>
          match routeTagsD st1.node tags with
          | Except.error er => Except.error er
          | Except.ok n2 => shapeAttrsD tags { st1 with node := n2 } rest

/-- State of the cleaning pass over the shared dictionary: the address
dictionary under cleaning and the value held at the created key, which
need not be a dictionary. -/
structure CleanStD where
  address : Dict
  created : Option Val
deriving DecidableEq, Repr

/-- Housenumber / street rule over the shared dictionary: moving a
phone-shaped value indexes the created slot, raising KeyError when the
key is absent and AttributeError when it holds a non-dictionary
(has_key on a string). -/
def houseStepD (st : CleanStD) (key text : Str) : Except ShapeErr CleanStD :=
  if re_phonenumber text then
    match st.created with
    | none => Except.error ShapeErr.keyError
    | some (Val.d cr) =>
        if alHasKey cr (str "phone") then Except.ok st
        else Except.ok { address := alInsert st.address key [],
                         created := some (Val.d (alInsert cr (str "phone") text)) }
    | some _ => Except.error ShapeErr.attributeError
  else if re_postcode text then
    if alHasKey st.address (str "postcode") then Except.ok st
    else
      let withPost := alInsert st.address (str "postcode")
        (text.take 3 ++ (text.drop 4).take 4)
      Except.ok { address := alInsert withPost key [], created := st.created }
  else Except.ok st

/-- Cleaning of one recognized key over the shared dictionary; the
dictionary-only steps are those of the component model. -/
def cleanKeyD (st : CleanStD) (key : Str) : Except ShapeErr CleanStD :=
  match alLookup st.address key with
  | none => Except.ok st
  | some text0 =>
      let r4 := cleanUpToCity st.address key text0
      let addr5 := postStepIfPostcode key r4
      if key = str "housenumber" ∨ key = str "street" then
        houseStepD { address := addr5, created := st.created } key r4.1
      else Except.ok { address := addr5, created := st.created }

/-- The cleaning loop over the recognized keys, shared dictionary. -/
def cleanKeysD (st : CleanStD) : List Str → Except ShapeErr CleanStD
  | [] => Except.ok st
  | k :: ks =>
      match cleanKeyD st k with
      | Except.error er => Except.error er
      | Except.ok st1 => cleanKeysD st1 ks

/-- The address-cleaning pass over the shared dictionary: it runs when
the address key is present; when that slot holds a non-dictionary the
has_key call on it raises AttributeError.  The cleaned address
dictionary and the possibly updated created value are written back in
place. -/
def cleanAddressD (n : NodeD) : Except ShapeErr NodeD :=
  match ndLookup n (str "address") with
  | none => Except.ok n
  | some (Val.d addr) =>
      match cleanKeysD { address := addr, created := ndLookup n (str "created") } address_key with
      | Except.error er => Except.error er
      | Except.ok stc =>
          Except.ok (match stc.created with
            | some cv =>
                ndInsert (ndInsert n (str "address") (Val.d stc.address)) (str "created") cv
            | none => ndInsert n (str "address") (Val.d stc.address))
  | some _ => Except.error ShapeErr.attributeError

/-- Appending one nd reference over the shared dictionary: the list is
created with has_key on first use; append on a string or a string
dictionary raises AttributeError (the slot never holds the float
pair, which only the pos key receives). -/
def addRefD (n : NodeD) (r : Str) : Except ShapeErr NodeD :=
  match ndLookup n (str "node_refs") with
  | none => Except.ok (ndInsert n (str "node_refs") (Val.refs [r]))
  | some (Val.refs l) => Except.ok (ndInsert n (str "node_refs") (Val.refs (l.concat r)))
  | some _ => Except.error ShapeErr.attributeError

/-- The nd loop over the shared dictionary. -/
def foldRefsD : NodeD → List Str → Except ShapeErr NodeD
  | n, [] => Except.ok n
  | n, r :: rs =>
      match addRefD n r with
      | Except.error er => Except.error er
      | Except.ok n2 => foldRefsD n2 rs

/-- Reference collection over the shared dictionary: way elements
append every nd reference in document order. -/
def addNodeRefsD (n : NodeD) (e : Element) : Except ShapeErr NodeD :=
  if e.tag = str "way" then foldRefsD n e.nds else Except.ok n

/-- shape_element over the shared dictionary: one dictionary holds the
type discriminant, the reserved slots and every plain field, exactly
as in the source. -/
def shape_elementD (e : Element) : Except ShapeErr (Option NodeD) :=
  if e.tag = str "node" ∨ e.tag = str "way" then
    match shapeAttrsD e.tags
        { node := [(str "type", Val.s e.tag)], lat := none, lon := none } e.attrib with
    | Except.error er => Except.error er
    | Except.ok st =>
        match cleanAddressD st.node with
        | Except.error er => Except.error er
        | Except.ok n1 =>
            match addNodeRefsD n1 e with
            | Except.error er => Except.error er
            | Except.ok n2 => Except.ok (some n2)
  else Except.ok none

/-- Observer: the pos pair of the shared dictionary, when the pos slot
holds one. -/
def posvOf (n : NodeD) : Option (ℚ × ℚ) :=
  match ndLookup n (str "pos") with
  | some (Val.posv a b) => some (a, b)
  | _ => none

/-! Basic dictionary lemmas. -/

theorem alLookup_alInsert_self (m : Dict) (k v : Str) :
    alLookup (alInsert m k v) k = some v := by
  induction m with
  | nil => simp [alInsert, alLookup]
  | cons p m ih =>
      obtain ⟨k0, v0⟩ := p
      by_cases h : k0 = k
      · simp [alInsert, alLookup, h]
      · simpa [alInsert, alLookup, h] using ih

theorem alLookup_alInsert_ne (m : Dict) {k k2 : Str} (v : Str) (h : k2 ≠ k) :
    alLookup (alInsert m k v) k2 = alLookup m k2 := by
  induction m with
  | nil => simp [alInsert, alLookup, Ne.symm h]
  | cons p m ih =>
      obtain ⟨k0, v0⟩ := p
      by_cases h0 : k0 = k
      · simp [alInsert, alLookup, h0, Ne.symm h, h]
      · by_cases h1 : k0 = k2 <;> simp [alInsert, alLookup, h0, h1, ih, h]

theorem alHasKey_alInsert_self (m : Dict) (k v : Str) :
    alHasKey (alInsert m k v) k = true := by
  simp [alHasKey, alLookup_alInsert_self]

/-! Preservation lemmas: which record components each pass can touch. -/

theorem routeTag_parts (n : Node) (tk tv : Str) :
    (routeTag n tk tv).type = n.type ∧ (routeTag n tk tv).pos = n.pos ∧
    (routeTag n tk tv).created = n.created ∧
    (routeTag n tk tv).node_refs = n.node_refs := by
  dsimp only [routeTag]
  split_ifs <;> exact ⟨rfl, rfl, rfl, rfl⟩

theorem routeTags_parts (ts : List (Str × Str)) (n : Node) :
    (routeTags n ts).type = n.type ∧ (routeTags n ts).pos = n.pos ∧
    (routeTags n ts).created = n.created ∧
    (routeTags n ts).node_refs = n.node_refs := by
  induction ts generalizing n with
  | nil => simp [routeTags]
  | cons p ts ih =>
      obtain ⟨h1, h2, h3, h4⟩ := ih (routeTag n p.1 p.2)
      obtain ⟨g1, g2, g3, g4⟩ := routeTag_parts n p.1 p.2
      obtain ⟨k, v⟩ := p
      exact ⟨by simpa [routeTags] using h1.trans g1,
             by simpa [routeTags] using h2.trans g2,
             by simpa [routeTags] using h3.trans g3,
             by simpa [routeTags] using h4.trans g4⟩

theorem cleanAddress_of_none {n : Node} (ha : n.address = none) :
    cleanAddress n = Except.ok n := by
  unfold cleanAddress; rw [ha]

theorem cleanAddress_of_some {n : Node} {addr : Dict} (ha : n.address = some addr) :
    cleanAddress n =
      (cleanKeys { address := addr, created := n.created } address_key).bind
        (fun st => Except.ok
          { n with address := some st.address, created := st.created }) := by
  unfold cleanAddress; rw [ha]; rfl

theorem cleanAddress_parts {n n2 : Node} (h : cleanAddress n = Except.ok n2) :
    n2.type = n.type ∧ n2.pos = n.pos ∧ n2.fields = n.fields ∧
    n2.type_m = n.type_m ∧ n2.node_refs = n.node_refs := by
  cases ha : n.address with
  | none =>
      rw [cleanAddress_of_none ha] at h
      cases h
      simp
  | some addr =>
      rw [cleanAddress_of_some ha] at h
      cases hc : cleanKeys { address := addr, created := n.created } address_key with
      | error er => rw [hc] at h; cases h
      | ok st =>
          rw [hc] at h
          simp only [Except.bind] at h
          cases h
          simp

theorem foldl_addRef_parts (l : List Str) (n : Node) :
    (List.foldl addRef n l).type = n.type ∧ (List.foldl addRef n l).pos = n.pos ∧
    (List.foldl addRef n l).created = n.created ∧
    (List.foldl addRef n l).fields = n.fields ∧
    (List.foldl addRef n l).type_m = n.type_m ∧
    (List.foldl addRef n l).address = n.address := by
  induction l generalizing n with
  | nil => simp
  | cons r l ih =>
      obtain ⟨h1, h2, h3, h4, h5, h6⟩ := ih (addRef n r)
      exact ⟨by rw [List.foldl_cons]; exact h1, by rw [List.foldl_cons]; exact h2,
             by rw [List.foldl_cons]; exact h3, by rw [List.foldl_cons]; exact h4,
             by rw [List.foldl_cons]; exact h5, by rw [List.foldl_cons]; exact h6⟩

theorem foldl_addRef_refs (l : List Str) (n : Node) :
    (List.foldl addRef n l).node_refs =
      if l.isEmpty then n.node_refs else some (n.node_refs.getD [] ++ l) := by
  induction l generalizing n with
  | nil => simp
  | cons r l ih =>
      rw [List.foldl_cons, ih (addRef n r)]
      cases l with
      | nil => simp [addRef]
      | cons r2 l2 => simp [addRef]

theorem addNodeRefs_parts (n : Node) (e : Element) :
    (addNodeRefs n e).type = n.type ∧ (addNodeRefs n e).pos = n.pos ∧
    (addNodeRefs n e).created = n.created ∧
    (addNodeRefs n e).fields = n.fields ∧
    (addNodeRefs n e).type_m = n.type_m ∧
    (addNodeRefs n e).address = n.address := by
  unfold addNodeRefs
  split
  · exact foldl_addRef_parts e.nds n
  · simp

/-- Successful shaping decomposes into the attribute loop, the address
cleaning and the reference collection. -/
theorem shape_element_ok_inv {e : Element} {nd : Node}
    (h : shape_element e = Except.ok (some nd)) :
    (e.tag = str "node" ∨ e.tag = str "way") ∧
    ∃ st n1,
      shapeAttrs e.tags { node := { type := e.tag }, lat := none, lon := none } e.attrib
        = Except.ok st ∧
      cleanAddress st.node = Except.ok n1 ∧ nd = addNodeRefs n1 e := by
  unfold shape_element at h
  split at h
  case isTrue htag =>
    refine ⟨htag, ?_⟩
    cases hs : shapeAttrs e.tags { node := { type := e.tag }, lat := none, lon := none } e.attrib with
    | error er => rw [hs] at h; cases h
    | ok st =>
        rw [hs] at h
        simp only [Bind.bind, Except.bind] at h
        cases hc : cleanAddress st.node with
        | error er => rw [hc] at h; cases h
        | ok n1 =>
            rw [hc] at h
            simp only [Except.bind] at h
            cases h
            exact ⟨st, n1, rfl, hc, rfl⟩
  case isFalse => cases h

/-- An attribute-loop error propagates out of shape_element. -/
theorem shape_element_err_of_attrs {e : Element} {er : ShapeErr}
    (htag : e.tag = str "node" ∨ e.tag = str "way")
    (h : shapeAttrs e.tags { node := { type := e.tag }, lat := none, lon := none } e.attrib
          = Except.error er) :
    shape_element e = Except.error er := by
  unfold shape_element
  rw [if_pos htag, h]
  rfl

/-! Claim C1. -/

/-- Claim C1: the specification states that the router visits every
nested key/value tag exactly once per accepted element, also when the
element has zero top-level attributes, and never once per attribute.
The source nests the tag loop inside the attribute loop, so an element
without attributes has its nested tags dropped entirely, while the same
element with one attribute does get its address entry: the code
contradicts the claimed routing. -/
theorem C1_tag_loop_nested_inside_attribute_loop :
    shape_element ⟨str "node", [], [(str "addr:housename", str "x")], []⟩
      = Except.ok (some ⟨str "node", none, none, [], none, none, none⟩) ∧
    shape_element ⟨str "node", [(str "id", str "1")], [(str "addr:housename", str "x")], []⟩
      = Except.ok (some ⟨str "node", none, none, [(str "id", str "1")], none,
          some [(str "housename", str "x")], none⟩) :=
  ⟨by decide, by decide⟩

/-! Claim C3. -/

/-- Claim C3: moving a phone-shaped housenumber into created.phone is
claimed to work, with no error, also when the element had no
created-metadata attributes.  The source indexes node at created
without an existence guard, so that case raises KeyError instead. -/
theorem C3_phone_move_raises_keyerror_without_created :
    shape_element ⟨str "node", [(str "id", str "1")], [(str "addr:housenumber", str "075-123-4567")], []⟩
      = Except.error ShapeErr.keyError := by decide

/-! Counterexamples for claims C4, C5 and C6. -/

/-- Claim C4 counterexample: a way reference containing a full-width
digit is stored in node_refs raw, without passing text normalization
(nfkc would have rewritten it). -/
theorem C4_counterexample :
    shape_element ⟨str "way", [], [], [str "１０"]⟩
      = Except.ok (some ⟨str "way", none, none, [], none, none, some [str "１０"]⟩) ∧
    nfkc (str "１０") ≠ str "１０" :=
  ⟨by decide, by decide⟩

/-- Claim C5 counterexample: the whitespace step is claimed to remove
only the first whitespace occurrence, which would clean the housename
value a b c d to ab c d; the code removes every occurrence of the found
character and produces abcd. -/
theorem C5_counterexample :
    shape_element ⟨str "node", [(str "id", str "1")], [(str "addr:housename", str "a b c d")], []⟩
      = Except.ok (some ⟨str "node", none, none, [(str "id", str "1")], none,
          some [(str "housename", str "abcd")], none⟩) ∧
    str "abcd" ≠ str "ab c d" :=
  ⟨by decide, by decide⟩

/-- Claim C6 counterexample: the punctuation step is claimed to remove
exactly one matched substring, which would clean the housename value
yesyes to yes; the replace removes every occurrence of the match and
produces the empty string. -/
theorem C6_counterexample :
    shape_element ⟨str "node", [(str "id", str "1")], [(str "addr:housename", str "yesyes")], []⟩
      = Except.ok (some ⟨str "node", none, none, [(str "id", str "1")], none,
          some [(str "housename", str "")], none⟩) ∧
    str "" ≠ str "yes" :=
  ⟨by decide, by decide⟩

/-! Stable components of the attribute loop (component model). -/

theorem checkLatLon_parts {st st2 : AttrSt} (h : checkLatLon st = Except.ok st2) :
    st2.node.type = st.node.type ∧ st2.node.type_m = st.node.type_m ∧
    st2.node.address = st.node.address ∧ st2.node.node_refs = st.node.node_refs := by
  unfold checkLatLon at h
  split at h
  · split at h
    · cases h; exact ⟨rfl, rfl, rfl, rfl⟩
    · cases h
  · cases h; exact ⟨rfl, rfl, rfl, rfl⟩

theorem processAttr_parts {st st2 : AttrSt} {a v : Str}
    (h : processAttr st a v = Except.ok st2) :
    st2.node.type = st.node.type ∧ st2.node.type_m = st.node.type_m ∧
    st2.node.address = st.node.address ∧ st2.node.node_refs = st.node.node_refs := by
  unfold processAttr at h
  split at h
  · cases h; exact ⟨rfl, rfl, rfl, rfl⟩
  · split at h
    · have hp := checkLatLon_parts h
      have hnode : (if a = str "lat" then { st with lat := some v }
          else if a = str "lon" then { st with lon := some v } else st).node = st.node := by
        split_ifs <;> rfl
      rw [hnode] at hp
      exact hp
    · cases h; exact ⟨rfl, rfl, rfl, rfl⟩

theorem shapeAttrs_stable_parts {tags : List (Str × Str)} :
    ∀ (l : List (Str × Str)) (st st2 : AttrSt),
    shapeAttrs tags st l = Except.ok st2 →
    st2.node.type = st.node.type ∧ st2.node.node_refs = st.node.node_refs := by
  intro l
  induction l with
  | nil =>
      intro st st2 h
      cases h
      exact ⟨rfl, rfl⟩
  | cons p l ih =>
      intro st st2 h
      obtain ⟨a, v⟩ := p
      unfold shapeAttrs at h
      cases hp : processAttr st a v with
      | error er => rw [hp] at h; cases h
      | ok st1 =>
          rw [hp] at h
          simp only [Bind.bind, Except.bind] at h
          obtain ⟨ht, hr⟩ := ih { st1 with node := routeTags st1.node tags } st2 h
          obtain ⟨pt, _, _, pr⟩ := processAttr_parts hp
          obtain ⟨rt, _, _, rr⟩ := routeTags_parts tags st1.node
          exact ⟨ht.trans (rt.trans pt), hr.trans (rr.trans pr)⟩

/-! The address observer and the last routing pass (component model). -/

/-- Observer: the address entry of a record at a subkey. -/
def addrLookup (n : Node) (k : Str) : Option Str :=
  match n.address with
  | none => none
  | some m => alLookup m k

theorem drop5_ne_nil_of_proper_prefix {tk : Str}
    (hp : (str "addr:").isPrefixOf tk = true) (hne : tk ≠ str "addr:") :
    tk.drop 5 ≠ [] := by
  rw [List.isPrefixOf_iff_prefix] at hp
  obtain ⟨t, ht⟩ := hp
  subst ht
  have h5 : (str "addr:").length = 5 := by decide
  rw [← h5, List.drop_left]
  intro hnil
  subst hnil
  simp at hne

theorem routeTag_addr_empty (n : Node) (tv : Str) :
    addrLookup (routeTag n (str "addr:") tv) [] = some (nfkc tv) := by
  have h1 : problemchars (str "addr:") = false := by decide
  have h2 : (str "addr:").isPrefixOf (str "addr:") = true := by decide
  have h3 : (str "addr:").drop 5 = [] := by decide
  have h4 : lower_colon [] = false := by decide
  unfold routeTag
  rw [h1]
  simp only [Bool.false_eq_true, if_false, h2, if_true, h3, h4]
  simp [addrLookup, alLookup_alInsert_self]

theorem routeTag_preserve_empty (n : Node) {tk : Str} (tv : Str)
    (hne : tk ≠ str "addr:") :
    addrLookup (routeTag n tk tv) [] = addrLookup n [] := by
  unfold routeTag
  by_cases h1 : problemchars tk = true
  · rw [if_pos h1]
  · rw [if_neg h1]
    by_cases h2 : (str "addr:").isPrefixOf tk = true
    · rw [if_pos h2]
      dsimp only
      by_cases h3 : lower_colon (tk.drop 5) = true
      · rw [if_pos h3]
      · rw [if_neg h3]
        have hd : tk.drop 5 ≠ [] := drop5_ne_nil_of_proper_prefix h2 hne
        show alLookup (alInsert (n.address.getD []) (tk.drop 5) (nfkc tv)) [] = addrLookup n []
        rw [alLookup_alInsert_ne _ _ (Ne.symm hd)]
        cases hq : n.address with
        | none => simp [addrLookup, hq, alLookup]
        | some m => simp [addrLookup, hq]
    · rw [if_neg h2]
      by_cases h4 : tk = str "type"
      · rw [if_pos h4]
        cases hq : n.address with
        | none => simp [addrLookup, hq]
        | some m => simp [addrLookup, hq]
      · rw [if_neg h4]
        cases hq : n.address with
        | none => simp [addrLookup, hq]
        | some m => simp [addrLookup, hq]

theorem routeTags_preserve_empty :
    ∀ (ts : List (Str × Str)) (n : Node),
    (∀ p : Str × Str, p ∈ ts → p.1 ≠ str "addr:") →
    addrLookup (routeTags n ts) [] = addrLookup n [] := by
  intro ts
  induction ts with
  | nil => intro n _; rfl
  | cons p ts ih =>
      intro n hp
      obtain ⟨k, v⟩ := p
      have hk : k ≠ str "addr:" := hp (k, v) (List.mem_cons_self _ _)
      calc addrLookup (routeTags (routeTag n k v) ts) []
          = addrLookup (routeTag n k v) [] :=
            ih (routeTag n k v) (fun q hq => hp q (List.mem_cons_of_mem _ hq))
        _ = addrLookup n [] := routeTag_preserve_empty n v hk

theorem routeTags_addr_empty :
    ∀ (ts : List (Str × Str)) (n : Node) (v : Str),
    (str "addr:", v) ∈ ts →
    ∃ v2, (str "addr:", v2) ∈ ts ∧
      addrLookup (routeTags n ts) [] = some (nfkc v2) := by
  intro ts
  induction ts with
  | nil => intro n v hv; cases hv
  | cons p ts ih =>
      intro n v hv
      by_cases hrest : ∃ w, (str "addr:", w) ∈ ts
      · obtain ⟨w, hw⟩ := hrest
        obtain ⟨v2, hv2, hl⟩ := ih (routeTag n p.1 p.2) w hw
        exact ⟨v2, List.mem_cons_of_mem _ hv2, hl⟩
      · have hhead : p = (str "addr:", v) := by
          cases List.mem_cons.mp hv with
          | inl h => exact h.symm
          | inr h => exact absurd ⟨v, h⟩ hrest
        subst hhead
        have hnot : ∀ q : Str × Str, q ∈ ts → q.1 ≠ str "addr:" := by
          intro q hq hq1
          exact hrest ⟨q.2, by
            have : q = (str "addr:", q.2) := by
              obtain ⟨q1, q2⟩ := q
              simp at hq1
              rw [hq1]
            exact this ▸ hq⟩
        refine ⟨v, List.mem_cons_self _ _, ?_⟩
        calc addrLookup (routeTags (routeTag n (str "addr:") v) ts) []
            = addrLookup (routeTag n (str "addr:") v) [] :=
              routeTags_preserve_empty ts _ hnot
          _ = some (nfkc v) := routeTag_addr_empty n v

/-- For a non-empty attribute list, the final record state of the
attribute loop ends with a full pass of the tag router. -/
theorem shapeAttrs_last_route {tags : List (Str × Str)} :
    ∀ (l : List (Str × Str)) (st st2 : AttrSt), l ≠ [] →
    shapeAttrs tags st l = Except.ok st2 →
    ∃ n0, st2.node = routeTags n0 tags := by
  intro l
  induction l with
  | nil => intro st st2 hne _; exact absurd rfl hne
  | cons p l ih =>
      intro st st2 _ h
      obtain ⟨a, v⟩ := p
      unfold shapeAttrs at h
      cases hp : processAttr st a v with
      | error er => rw [hp] at h; cases h
      | ok st1 =>
          rw [hp] at h
          simp only [Bind.bind, Except.bind] at h
          cases hl : l with
          | nil =>
              subst hl
              cases h
              exact ⟨st1.node, rfl⟩
          | cons q l2 =>
              subst hl
              exact ih _ st2 (by simp) h

/-! Write-set lemmas: every dictionary update of the cleaning pass hits
only the cleaned key, the street entry or the postcode entry. -/

theorem gen1_lookup_ne (addr : Dict) (key t : Str) {q : Str} (hq : q ≠ key) :
    alLookup (gen1 addr key t).2 q = alLookup addr q := by
  unfold gen1
  split
  · exact alLookup_alInsert_ne _ _ hq
  · rfl

theorem gen2_lookup_ne (orig : Str) (addr : Dict) (key t : Str) {q : Str} (hq : q ≠ key) :
    alLookup (gen2 orig addr key t).2 q = alLookup addr q := by
  unfold gen2
  split
  · exact alLookup_alInsert_ne _ _ hq
  · rfl

theorem gen3_lookup_ne (orig : Str) (addr : Dict) (key t : Str) {q : Str} (hq : q ≠ key) :
    alLookup (gen3 orig addr key t).2 q = alLookup addr q := by
  unfold gen3
  split
  · exact alLookup_alInsert_ne _ _ hq
  · rfl

theorem cleanGenericSteps_lookup_ne (addr : Dict) (key t : Str) {q : Str} (hq : q ≠ key) :
    alLookup (cleanGenericSteps addr key t).2 q = alLookup addr q := by
  unfold cleanGenericSteps
  rw [gen3_lookup_ne _ _ _ _ hq, gen2_lookup_ne _ _ _ _ hq, gen1_lookup_ne _ _ _ hq]

theorem cityStepA_lookup_ne (addr : Dict) (key t : Str) {q : Str} (hq : q ≠ key) :
    alLookup (cityStepA addr key t).2 q = alLookup addr q := by
  unfold cityStepA
  split
  · exact alLookup_alInsert_ne _ _ hq
  · exact alLookup_alInsert_ne _ _ hq

theorem cityStepB_lookup_ne (w : Option Str) (p : Str × Dict) {q : Str}
    (hq : q ≠ str "street") :
    alLookup (cityStepB w p).2 q = alLookup p.2 q := by
  unfold cityStepB
  split
  · split
    · exact alLookup_alInsert_ne _ _ hq
    · exact alLookup_alInsert_ne _ _ hq
  · rfl

theorem cleanUpToCity_lookup_ne (addr : Dict) (key t : Str) {q : Str}
    (hq1 : q ≠ key) (hq2 : q ≠ str "street") :
    alLookup (cleanUpToCity addr key t).2 q = alLookup addr q := by
  unfold cleanUpToCity
  dsimp only
  split
  · unfold cityStep
    rw [cityStepB_lookup_ne _ _ hq2, cityStepA_lookup_ne _ _ _ hq1,
        cleanGenericSteps_lookup_ne _ _ _ hq1]
  · exact cleanGenericSteps_lookup_ne _ _ _ hq1

theorem postStepIfPostcode_lookup_ne (key : Str) (p : Str × Dict) {q : Str}
    (hq : q ≠ key) :
    alLookup (postStepIfPostcode key p) q = alLookup p.2 q := by
  unfold postStepIfPostcode
  split
  · exact alLookup_alInsert_ne _ _ hq
  · rfl

theorem houseStep_lookup_ne {st st2 : CleanSt} {key t : Str}
    (h : houseStep st key t = Except.ok st2) {q : Str}
    (hq1 : q ≠ key) (hq3 : q ≠ str "postcode") :
    alLookup st2.address q = alLookup st.address q := by
  unfold houseStep at h
  by_cases hp : re_phonenumber t = true
  · rw [if_pos hp] at h
    cases hc : st.created with
    | none => rw [hc] at h; cases h
    | some cr =>
        rw [hc] at h
        dsimp only at h
        by_cases hk : alHasKey cr (str "phone") = true
        · rw [if_pos hk] at h; cases h; rfl
        · rw [if_neg hk] at h; cases h; exact alLookup_alInsert_ne _ _ hq1
  · rw [if_neg hp] at h
    by_cases hpc : re_postcode t = true
    · rw [if_pos hpc] at h
      by_cases hk : alHasKey st.address (str "postcode") = true
      · rw [if_pos hk] at h; cases h; rfl
      · rw [if_neg hk] at h
        cases h
        dsimp only
        rw [alLookup_alInsert_ne _ _ hq1, alLookup_alInsert_ne _ _ hq3]
    · rw [if_neg hpc] at h; cases h; rfl

theorem cleanKey_lookup_ne {st st2 : CleanSt} {key : Str}
    (h : cleanKey st key = Except.ok st2) {q : Str}
    (hq1 : q ≠ key) (hq2 : q ≠ str "street") (hq3 : q ≠ str "postcode") :
    alLookup st2.address q = alLookup st.address q := by
  unfold cleanKey at h
  cases hl : alLookup st.address key with
  | none => rw [hl] at h; cases h; rfl
  | some t0 =>
      rw [hl] at h
      dsimp only at h
      by_cases hh : key = str "housenumber" ∨ key = str "street"
      · rw [if_pos hh] at h
        have h1 := houseStep_lookup_ne h hq1 hq3
        dsimp only at h1
        rw [h1, postStepIfPostcode_lookup_ne _ _ hq1,
            cleanUpToCity_lookup_ne _ _ _ hq1 hq2]
      · rw [if_neg hh] at h
        cases h
        dsimp only
        rw [postStepIfPostcode_lookup_ne _ _ hq1,
            cleanUpToCity_lookup_ne _ _ _ hq1 hq2]

theorem cleanKeys_lookup_ne {q : Str} :
    ∀ (ks : List Str) (st st2 : CleanSt),
    cleanKeys st ks = Except.ok st2 →
    (∀ k, k ∈ ks → q ≠ k) → q ≠ str "street" → q ≠ str "postcode" →
    alLookup st2.address q = alLookup st.address q := by
  intro ks
  induction ks with
  | nil => intro st st2 h _ _ _; cases h; rfl
  | cons k ks ih =>
      intro st st2 h hk h2 h3
      unfold cleanKeys at h
      cases hc : cleanKey st k with
      | error er => rw [hc] at h; cases h
      | ok st1 =>
          rw [hc] at h
          simp only [Bind.bind, Except.bind] at h
          rw [ih st1 st2 h (fun k2 hk2 => hk k2 (List.mem_cons_of_mem _ hk2)) h2 h3]
          exact cleanKey_lookup_ne hc (hk k (List.mem_cons_self _ _)) h2 h3

theorem cleanAddress_addrLookup_empty {n n2 : Node}
    (h : cleanAddress n = Except.ok n2) :
    addrLookup n2 [] = addrLookup n [] := by
  cases ha : n.address with
  | none =>
      rw [cleanAddress_of_none ha] at h
      cases h
      rfl
  | some addr =>
      rw [cleanAddress_of_some ha] at h
      cases hc : cleanKeys { address := addr, created := n.created } address_key with
      | error er => rw [hc] at h; cases h
      | ok stc =>
          rw [hc] at h
          simp only [Except.bind] at h
          cases h
          show alLookup stc.address [] = addrLookup n []
          rw [cleanKeys_lookup_ne address_key _ _ hc
                (by intro k hk; fin_cases hk <;> decide) (by decide) (by decide)]
          simp [addrLookup, ha]

theorem addrLookup_congr {n n2 : Node} (h : n.address = n2.address) (k : Str) :
    addrLookup n k = addrLookup n2 k := by
  unfold addrLookup
  rw [h]

/-! Claim C9. -/

theorem gen1_lookup_self {addr : Dict} {key t : Str} (hl : alLookup addr key = some t) :
    alLookup (gen1 addr key t).2 key = some (gen1 addr key t).1 := by
  unfold gen1
  split
  · simp [alLookup_alInsert_self]
  · simpa using hl

theorem gen2_lookup_self {orig : Str} {addr : Dict} {key t : Str}
    (hl : alLookup addr key = some t) :
    alLookup (gen2 orig addr key t).2 key = some (gen2 orig addr key t).1 := by
  unfold gen2
  split
  · simp [alLookup_alInsert_self]
  · simpa using hl

theorem gen3_lookup_self {orig : Str} {addr : Dict} {key t : Str}
    (hl : alLookup addr key = some t) :
    alLookup (gen3 orig addr key t).2 key = some (gen3 orig addr key t).1 := by
  unfold gen3
  split
  · simp [alLookup_alInsert_self]
  · simpa using hl

theorem cleanGenericSteps_lookup_self {addr : Dict} {key t : Str}
    (hl : alLookup addr key = some t) :
    alLookup (cleanGenericSteps addr key t).2 key
      = some (cleanGenericSteps addr key t).1 := by
  unfold cleanGenericSteps
  exact gen3_lookup_self (gen2_lookup_self (gen1_lookup_self hl))

theorem cleanGenericSteps_fst (addr : Dict) (key t : Str) :
    (cleanGenericSteps addr key t).1 = genericClean t := by
  unfold cleanGenericSteps genericClean gen1 gen2 gen3
  cases addr_problemchars t <;> cases addr_semicolon t <;> cases addr_space t <;> rfl

theorem houseStep_postcode_present {st st2 : CleanSt} {key t : Str}
    (h : houseStep st key t = Except.ok st2) (hkey : key ≠ str "postcode")
    (hpres : alHasKey st.address (str "postcode") = true) :
    alLookup st2.address (str "postcode") = alLookup st.address (str "postcode") := by
  unfold houseStep at h
  by_cases hp : re_phonenumber t = true
  · rw [if_pos hp] at h
    cases hc : st.created with
    | none => rw [hc] at h; cases h
    | some cr =>
        rw [hc] at h
        dsimp only at h
        by_cases hk : alHasKey cr (str "phone") = true
        · rw [if_pos hk] at h; cases h; rfl
        · rw [if_neg hk] at h; cases h
          exact alLookup_alInsert_ne _ _ (Ne.symm hkey)
  · rw [if_neg hp] at h
    by_cases hpc : re_postcode t = true
    · rw [if_pos hpc] at h
      rw [if_pos hpres] at h
      cases h
      rfl
    · rw [if_neg hpc] at h; cases h; rfl

theorem cleanKey_postcode_present {st st2 : CleanSt} {k : Str}
    (h : cleanKey st k = Except.ok st2) (hk : k ≠ str "postcode")
    (hpres : alHasKey st.address (str "postcode") = true) :
    alLookup st2.address (str "postcode") = alLookup st.address (str "postcode") := by
  have hq1 : (str "postcode") ≠ k := Ne.symm hk
  have hq2 : (str "postcode") ≠ str "street" := by decide
  unfold cleanKey at h
  cases hl : alLookup st.address k with
  | none => rw [hl] at h; cases h; rfl
  | some t0 =>
      rw [hl] at h
      dsimp only at h
      by_cases hh : k = str "housenumber" ∨ k = str "street"
      · rw [if_pos hh] at h
        have hstay : alLookup (postStepIfPostcode k (cleanUpToCity st.address k t0)) (str "postcode")
            = alLookup st.address (str "postcode") := by
          rw [postStepIfPostcode_lookup_ne _ _ hq1, cleanUpToCity_lookup_ne _ _ _ hq1 hq2]
        have hpres2 : alHasKey (postStepIfPostcode k (cleanUpToCity st.address k t0)) (str "postcode") = true := by
          unfold alHasKey
          rw [hstay]
          exact hpres
        have h1 := houseStep_postcode_present h hk hpres2
        rw [h1]
        exact hstay
      · rw [if_neg hh] at h
        cases h
        dsimp only
        rw [postStepIfPostcode_lookup_ne _ _ hq1, cleanUpToCity_lookup_ne _ _ _ hq1 hq2]

theorem cleanKeys_cons_inv {st stc : CleanSt} {k : Str} {ks : List Str}
    (h : cleanKeys st (k :: ks) = Except.ok stc) :
    ∃ st1, cleanKey st k = Except.ok st1 ∧ cleanKeys st1 ks = Except.ok stc := by
  unfold cleanKeys at h
  cases hc : cleanKey st k with
  | error er => rw [hc] at h; cases h
  | ok st1 =>
      rw [hc] at h
      simp only [Bind.bind, Except.bind] at h
      exact ⟨st1, rfl, h⟩

/-- Claim C9: when the address dictionary of a record entering the
cleaning pass has a postcode entry, the stored postcode is the
hyphen-stripped seven digits whenever the generically cleaned value
matches the three-digits-hyphen-four-digits pattern, and is otherwise
left exactly as cleaned by the generic steps. -/
theorem C9_postcode_hyphen_stripped {n n2 : Node} {v : Str}
    (h : cleanAddress n = Except.ok n2)
    (hv : addrLookup n (str "postcode") = some v) :
    (re_postcode (genericClean v) = true →
      addrLookup n2 (str "postcode")
        = some ((genericClean v).take 3 ++ ((genericClean v).drop 4).take 4)) ∧
    (re_postcode (genericClean v) = false →
      addrLookup n2 (str "postcode") = some (genericClean v)) := by
  cases ha : n.address with
  | none =>
      unfold addrLookup at hv
      rw [ha] at hv
      cases hv
  | some addr =>
      unfold addrLookup at hv
      rw [ha] at hv
      dsimp only at hv
      rw [cleanAddress_of_some ha] at h
      cases hks : cleanKeys { address := addr, created := n.created } address_key with
      | error er => rw [hks] at h; cases h
      | ok stc =>
          rw [hks] at h
          simp only [Except.bind] at h
          cases h
          unfold address_key at hks
          obtain ⟨st1, h1, hks⟩ := cleanKeys_cons_inv hks
          obtain ⟨st2, h2, hks⟩ := cleanKeys_cons_inv hks
          obtain ⟨st3, h3, hks⟩ := cleanKeys_cons_inv hks
          obtain ⟨st4, h4, hks⟩ := cleanKeys_cons_inv hks
          obtain ⟨st5, h5, hks⟩ := cleanKeys_cons_inv hks
          cases hks
          have p1 : alLookup st1.address (str "postcode") = some v := by
            rw [cleanKey_postcode_present h1 (by decide) (by simp [alHasKey, hv])]
            exact hv
          have p2 : alLookup st2.address (str "postcode") = some v := by
            rw [cleanKey_postcode_present h2 (by decide) (by simp [alHasKey, p1])]
            exact p1
          have p3 : alLookup st3.address (str "postcode") = some v := by
            rw [cleanKey_postcode_present h3 (by decide) (by simp [alHasKey, p2])]
            exact p2
          have p4 : alLookup st4.address (str "postcode") = some v := by
            rw [cleanKey_postcode_present h4 (by decide) (by simp [alHasKey, p3])]
            exact p3
          unfold cleanKey at h5
          rw [p4] at h5
          dsimp only at h5
          rw [if_neg (by decide :
            ¬(str "postcode" = str "housenumber" ∨ str "postcode" = str "street"))] at h5
          cases h5
          have hg : cleanUpToCity st4.address (str "postcode") v
              = cleanGenericSteps st4.address (str "postcode") v := by
            unfold cleanUpToCity
            rw [if_neg (by decide : ¬(str "postcode" = str "city"))]
          have hfst := cleanGenericSteps_fst st4.address (str "postcode") v
          have hself := cleanGenericSteps_lookup_self p4
          constructor
          · intro hmatch
          
            show alLookup (postStepIfPostcode (str "postcode")
              (cleanUpToCity st4.address (str "postcode") v)) (str "postcode") = _
            rw [hg]
            unfold postStepIfPostcode
            rw [if_pos ⟨rfl, by rw [hfst]; exact hmatch⟩]
            rw [alLookup_alInsert_self, hfst]
          · intro hnone
            show alLookup (postStepIfPostcode (str "postcode")
              (cleanUpToCity st4.address (str "postcode") v)) (str "postcode") = _
            rw [hg]
            unfold postStepIfPostcode
            rw [if_neg (by rw [hfst, hnone]; simp)]
            rw [hself, hfst]

/-- Witness for claim C9 at the concrete value 123-4567, together with
the end-to-end scenario of a nested addr postcode tag. -/
theorem C9_postcode_hyphen_stripped_witness :
    ((re_postcode (genericClean (str "123-4567")) = true →
      addrLookup ⟨str "node", none, none, [], none,
          some [(str "postcode", str "1234567")], none⟩ (str "postcode")
        = some ((genericClean (str "123-4567")).take 3 ++
                ((genericClean (str "123-4567")).drop 4).take 4)) ∧
     (re_postcode (genericClean (str "123-4567")) = false →
      addrLookup ⟨str "node", none, none, [], none,
          some [(str "postcode", str "1234567")], none⟩ (str "postcode")
        = some (genericClean (str "123-4567")))) ∧
    shape_element ⟨str "node", [(str "id", str "1")], [(str "addr:postcode", str "123-4567")], []⟩
      = Except.ok (some ⟨str "node", none, none, [(str "id", str "1")], none,
          some [(str "postcode", str "1234567")], none⟩) :=
  ⟨@C9_postcode_hyphen_stripped
      ⟨str "node", none, none, [], none, some [(str "postcode", str "123-4567")], none⟩
      ⟨str "node", none, none, [], none, some [(str "postcode", str "1234567")], none⟩
      (str "123-4567") (by decide) (by decide),
   by decide⟩

/-! Claim C8. -/

/-- Observer: the created entry of a record at a key. -/
def createdLookup (n : Node) (k : Str) : Option Str :=
  match n.created with
  | none => none
  | some m => alLookup m k

/-- Observer: the phone entry of the cleaning state. -/
def phoneOf (st : CleanSt) : Option Str :=
  match st.created with
  | none => none
  | some m => alLookup m (str "phone")

theorem phoneOf_congr {st st2 : CleanSt} (h : st2.created = st.created) :
    phoneOf st2 = phoneOf st := by
  unfold phoneOf
  rw [h]

theorem cleanKey_created_not_house {st st2 : CleanSt} {k : Str}
    (hk : ¬(k = str "housenumber" ∨ k = str "street"))
    (h : cleanKey st k = Except.ok st2) : st2.created = st.created := by
  unfold cleanKey at h
  cases hl : alLookup st.address k with
  | none => rw [hl] at h; cases h; rfl
  | some t0 =>
      rw [hl] at h
      dsimp only at h
      rw [if_neg hk] at h
      cases h
      rfl

theorem houseStep_phone_cases {st st2 : CleanSt} {key t : Str}
    (h : houseStep st key t = Except.ok st2) (hp : phoneOf st = none) :
    st2.created = st.created ∨
    (re_phonenumber t = true ∧ phoneOf st2 = some t ∧
     alLookup st2.address key = some []) := by
  unfold houseStep at h
  by_cases hph : re_phonenumber t = true
  · rw [if_pos hph] at h
    cases hc : st.created with
    | none => rw [hc] at h; cases h
    | some cr =>
        rw [hc] at h
        dsimp only at h
        have hk : alHasKey cr (str "phone") = false := by
          unfold phoneOf at hp
          rw [hc] at hp
          dsimp only at hp
          simp [alHasKey, hp]
        rw [if_neg (by rw [hk]; simp)] at h
        cases h
        right
        refine ⟨hph, ?_, alLookup_alInsert_self _ _ _⟩
        unfold phoneOf
        dsimp only
        exact alLookup_alInsert_self _ _ _
  · rw [if_neg hph] at h
    left
    by_cases hpc : re_postcode t = true
    · rw [if_pos hpc] at h
      by_cases hk2 : alHasKey st.address (str "postcode") = true
      · rw [if_pos hk2] at h; cases h; rfl
      · rw [if_neg hk2] at h; cases h; rfl
    · rw [if_neg hpc] at h; cases h; rfl

theorem houseStep_created_of_phone_some {st st2 : CleanSt} {key t v : Str}
    (h : houseStep st key t = Except.ok st2) (hp : phoneOf st = some v) :
    st2.created = st.created := by
  unfold houseStep at h
  by_cases hph : re_phonenumber t = true
  · rw [if_pos hph] at h
    cases hc : st.created with
    | none =>
        unfold phoneOf at hp
        rw [hc] at hp
        cases hp
    | some cr =>
        rw [hc] at h
        dsimp only at h
        have hkk : alHasKey cr (str "phone") = true := by
          unfold phoneOf at hp
          rw [hc] at hp
          dsimp only at hp
          simp [alHasKey, hp]
        rw [if_pos hkk] at h
        cases h
        first | rfl | exact hc
  · rw [if_neg hph] at h
    by_cases hpc : re_postcode t = true
    · rw [if_pos hpc] at h
      by_cases hk2 : alHasKey st.address (str "postcode") = true
      · rw [if_pos hk2] at h; cases h; rfl
      · rw [if_neg hk2] at h; cases h; rfl
    · rw [if_neg hpc] at h; cases h; rfl

theorem cleanKey_phone_cases {st st2 : CleanSt} {k : Str}
    (hk : k = str "housenumber" ∨ k = str "street")
    (h : cleanKey st k = Except.ok st2) (hp : phoneOf st = none) :
    st2.created = st.created ∨
    (∃ t, re_phonenumber t = true ∧ phoneOf st2 = some t ∧
      alLookup st2.address k = some []) := by
  unfold cleanKey at h
  cases hl : alLookup st.address k with
  | none => rw [hl] at h; cases h; left; rfl
  | some t0 =>
      rw [hl] at h
      dsimp only at h
      rw [if_pos hk] at h
      rcases houseStep_phone_cases h hp with hcase | ⟨hph, hphone, haddr⟩
      · left; exact hcase
      · right; exact ⟨(cleanUpToCity st.address k t0).1, hph, hphone, haddr⟩

theorem cleanKey_created_of_phone_some {st st2 : CleanSt} {k v : Str}
    (h : cleanKey st k = Except.ok st2) (hp : phoneOf st = some v) :
    st2.created = st.created := by
  by_cases hk : k = str "housenumber" ∨ k = str "street"
  · unfold cleanKey at h
    cases hl : alLookup st.address k with
    | none => rw [hl] at h; cases h; rfl
    | some t0 =>
        rw [hl] at h
        dsimp only at h
        rw [if_pos hk] at h
        have hp2 : phoneOf ⟨postStepIfPostcode k (cleanUpToCity st.address k t0), st.created⟩
            = some v := hp
        have h2 := houseStep_created_of_phone_some h hp2
        exact h2
  · exact cleanKey_created_not_house hk h

theorem cleanKey_lookup_ne2 {st st2 : CleanSt} {k : Str}
    (h : cleanKey st k = Except.ok st2) (hkc : k ≠ str "city") {q : Str}
    (hq1 : q ≠ k) (hq3 : q ≠ str "postcode") :
    alLookup st2.address q = alLookup st.address q := by
  unfold cleanKey at h
  cases hl : alLookup st.address k with
  | none => rw [hl] at h; cases h; rfl
  | some t0 =>
      rw [hl] at h
      dsimp only at h
      have hup : cleanUpToCity st.address k t0 = cleanGenericSteps st.address k t0 := by
        unfold cleanUpToCity
        dsimp only
        rw [if_neg hkc]
      by_cases hh : k = str "housenumber" ∨ k = str "street"
      · rw [if_pos hh] at h
        have h1 := houseStep_lookup_ne h hq1 hq3
        dsimp only at h1
        rw [h1, postStepIfPostcode_lookup_ne _ _ hq1, hup,
            cleanGenericSteps_lookup_ne _ _ _ hq1]
      · rw [if_neg hh] at h
        cases h
        dsimp only
        rw [postStepIfPostcode_lookup_ne _ _ hq1, hup,
            cleanGenericSteps_lookup_ne _ _ _ hq1]

/-- Claim C8: whenever the cleaning pass newly sets created.phone (it
was absent before cleaning and present after), the value was moved by
the housenumber / street relocation branch: it matches the phone
pattern and that source field was cleared to the empty string in the
same record, so the record never keeps the relocated value in the
address field. -/
theorem C8_phone_mutual_exclusivity {n n2 : Node} {v : Str}
    (h : cleanAddress n = Except.ok n2)
    (hpre : createdLookup n (str "phone") = none)
    (hpost : createdLookup n2 (str "phone") = some v) :
    ∃ k, (k = str "housenumber" ∨ k = str "street") ∧
      addrLookup n2 k = some [] ∧ re_phonenumber v = true := by
  cases ha : n.address with
  | none =>
      rw [cleanAddress_of_none ha] at h
      cases h
      rw [hpre] at hpost
      cases hpost
  | some addr =>
      rw [cleanAddress_of_some ha] at h
      cases hks : cleanKeys ⟨addr, n.created⟩ address_key with
      | error er => rw [hks] at h; cases h
      | ok stc =>
          rw [hks] at h
          simp only [Except.bind] at h
          cases h
          unfold address_key at hks
          obtain ⟨st1, h1, hks⟩ := cleanKeys_cons_inv hks
          obtain ⟨st2, h2, hks⟩ := cleanKeys_cons_inv hks
          obtain ⟨st3, h3, hks⟩ := cleanKeys_cons_inv hks
          obtain ⟨st4, h4, hks⟩ := cleanKeys_cons_inv hks
          obtain ⟨st5, h5, hks⟩ := cleanKeys_cons_inv hks
          cases hks
          have ph0 : phoneOf ⟨addr, n.created⟩ = none := hpre
          have hp5 : phoneOf stc = some v := hpost
          have ph1 : phoneOf st1 = none := by
            rw [phoneOf_congr (cleanKey_created_not_house (by decide) h1)]
            exact ph0
          rcases cleanKey_phone_cases (Or.inr rfl) h2 ph1 with hA | ⟨t, hph, hphone, haddr⟩
          · have ph2 : phoneOf st2 = none := by rw [phoneOf_congr hA]; exact ph1
            rcases cleanKey_phone_cases (Or.inl rfl) h3 ph2 with hB | ⟨t, hph, hphone, haddr⟩
            · have ph3 : phoneOf st3 = none := by rw [phoneOf_congr hB]; exact ph2
              have ph4 : phoneOf st4 = none := by
                rw [phoneOf_congr (cleanKey_created_not_house (by decide) h4)]
                exact ph3
              have ph5 : phoneOf stc = none := by
                rw [phoneOf_congr (cleanKey_created_not_house (by decide) h5)]
                exact ph4
              rw [ph5] at hp5
              cases hp5
            · -- the relocation fired at the housenumber key
              have c4 : phoneOf st4 = some t := by
                rw [phoneOf_congr (cleanKey_created_of_phone_some h4 hphone)]
                exact hphone
              have c5 : phoneOf stc = some t := by
                rw [phoneOf_congr (cleanKey_created_of_phone_some h5 c4)]
                exact c4
              have htv : t = v := by
                rw [c5] at hp5
                exact Option.some.inj hp5
              refine ⟨str "housenumber", Or.inl rfl, ?_, htv ▸ hph⟩
              show alLookup stc.address (str "housenumber") = some []
              rw [cleanKey_lookup_ne2 h5 (by decide) (by decide) (by decide),
                  cleanKey_lookup_ne2 h4 (by decide) (by decide) (by decide)]
              exact haddr
          · -- the relocation fired at the street key
            have c3 : phoneOf st3 = some t := by
              rw [phoneOf_congr (cleanKey_created_of_phone_some h3 hphone)]
              exact hphone
            have c4 : phoneOf st4 = some t := by
              rw [phoneOf_congr (cleanKey_created_of_phone_some h4 c3)]
              exact c3
            have c5 : phoneOf stc = some t := by
              rw [phoneOf_congr (cleanKey_created_of_phone_some h5 c4)]
              exact c4
            have htv : t = v := by
              rw [c5] at hp5
              exact Option.some.inj hp5
            refine ⟨str "street", Or.inr rfl, ?_, htv ▸ hph⟩
            show alLookup stc.address (str "street") = some []
            rw [cleanKey_lookup_ne2 h5 (by decide) (by decide) (by decide),
                cleanKey_lookup_ne2 h4 (by decide) (by decide) (by decide),
                cleanKey_lookup_ne2 h3 (by decide) (by decide) (by decide)]
            exact haddr

/-- Witness for claim C8: a street value shaped like a phone number is
relocated, clearing the street entry. -/
theorem C8_phone_mutual_exclusivity_witness :
    ∃ k, (k = str "housenumber" ∨ k = str "street") ∧
      addrLookup ⟨str "node", some [(str "uid", str "1"), (str "phone", str "075-123-4567")],
          none, [], none, some [(str "street", str "")], none⟩ k = some [] ∧
      re_phonenumber (str "075-123-4567") = true :=
  @C8_phone_mutual_exclusivity
    ⟨str "node", some [(str "uid", str "1")], none, [], none,
      some [(str "street", str "075-123-4567")], none⟩
    ⟨str "node", some [(str "uid", str "1"), (str "phone", str "075-123-4567")],
      none, [], none, some [(str "street", str "")], none⟩
    (str "075-123-4567")
    (by decide) (by decide) (by decide)

/-! Claim C5, amended. -/

theorem addr_space_isSpace : ∀ {s : Str} {c : Char}, addr_space s = some c →
    isSpaceChar c = true := by
  intro s
  induction s with
  | nil => intro c h; cases h
  | cons x s ih =>
      intro c h
      unfold addr_space at h
      by_cases hx : isSpaceChar x = true
      · rw [if_pos hx] at h
        cases h
        exact hx
      · rw [if_neg hx] at h
        exact ih h

theorem removeAllFuel_single (c : Char) :
    ∀ (f : Nat) (s : Str), s.length ≤ f →
    removeAllFuel [c] f s = s.filter (fun x => x ≠ c) := by
  intro f
  induction f with
  | zero =>
      intro s hs
      rw [Nat.le_zero] at hs
      rw [List.length_eq_zero] at hs
      subst hs
      rfl
  | succ f ih =>
      intro s hs
      cases s with
      | nil => rfl
      | cons x s =>
          unfold removeAllFuel
          by_cases hx : x = c
          · subst hx
            rw [if_pos ⟨by simp, by simp [List.isPrefixOf]⟩]
            have : ([x].length - 1) = 0 := by simp
            rw [this, List.drop_zero]
            rw [ih s (by simpa using Nat.le_of_succ_le_succ hs)]
            simp
          · rw [if_neg (by
              intro hcon
              rcases hcon with ⟨_, hpre⟩
              have := (List.isPrefixOf_iff_prefix.mp hpre)
              rcases this with ⟨t, ht⟩
              apply hx
              have := List.cons_eq_cons.mp (by simpa using ht)
              exact this.1.symm)]
            rw [ih s (Nat.le_of_succ_le_succ hs)]
            simp [hx]

/-- Claim C5 amended: when the whitespace search finds a character, the
replace removes every occurrence of that character from the value, not
only the first one: the step computes exactly the filter dropping that
character (other characters, including other whitespace characters, are
kept). -/
theorem C5_whitespace_removes_all_occurrences {s : Str} {c : Char}
    (h : addr_space s = some c) :
    removeAll [c] s = s.filter (fun x => x ≠ c) ∧ isSpaceChar c = true :=
  ⟨removeAllFuel_single c s.length s (Nat.le_refl _), addr_space_isSpace h⟩

/-- Witness for claim C5 at a value with three spaces. -/
theorem C5_whitespace_removes_all_occurrences_witness :
    removeAll [' '] (str "a b c d") = (str "a b c d").filter (fun x => x ≠ ' ') ∧
    isSpaceChar ' ' = true :=
  C5_whitespace_removes_all_occurrences (by decide)

/-! Claim C6, amended. -/

/-- First occurrence of a pattern: the value splits as prefix, pattern,
suffix with the shortest possible prefix. -/
def splitFirst (pat : Str) : Str → Option (Str × Str)
  | [] => none
  | c :: s =>
      if pat.isPrefixOf (c :: s) then some ([], (c :: s).drop pat.length)
      else
        match splitFirst pat s with
        | some (a, b) => some (c :: a, b)
        | none => none

theorem splitFirst_append {pat : Str} :
    ∀ {s a b : Str}, splitFirst pat s = some (a, b) → s = a ++ pat ++ b := by
  intro s
  induction s with
  | nil => intro a b h; cases h
  | cons c s ih =>
      intro a b h
      unfold splitFirst at h
      by_cases hp : pat.isPrefixOf (c :: s) = true
      · rw [if_pos hp] at h
        cases h
        obtain ⟨t, ht⟩ := List.isPrefixOf_iff_prefix.mp hp
        rw [← ht]
        simp [List.drop_left]
      · rw [if_neg hp] at h
        cases hs : splitFirst pat s with
        | none => rw [hs] at h; cases h
        | some p =>
            obtain ⟨a2, b2⟩ := p
            rw [hs] at h
            cases h
            rw [ih hs]
            rfl

theorem splitFirst_shrinks {pat : Str} (hpat : pat ≠ []) :
    ∀ {s a b : Str}, splitFirst pat s = some (a, b) → b.length < s.length := by
  intro s a b h
  have := splitFirst_append h
  subst this
  simp only [List.length_append]
  cases pat with
  | nil => exact absurd rfl hpat
  | cons p0 pr =>
      simp only [List.length_append, List.length_cons]
      omega

/-- Repeated removal of the first occurrence of a pattern, the
reference reading of removing every occurrence left to right. -/
def globalRemove (pat : Str) (s : Str) : Str :=
  if hpat : pat = [] then s
  else
    match hs : splitFirst pat s with
    | some (a, b) => a ++ globalRemove pat b
    | none => s
termination_by s.length
decreasing_by exact splitFirst_shrinks hpat hs

theorem globalRemove_of_split {pat s a b : Str} (hpat : pat ≠ [])
    (h : splitFirst pat s = some (a, b)) :
    globalRemove pat s = a ++ globalRemove pat b := by
  rw [globalRemove]
  rw [dif_neg hpat]
  split
  case _ a2 b2 heq =>
      rw [h] at heq
      cases heq
      rfl
  case _ heq => rw [h] at heq; cases heq

theorem globalRemove_of_none {pat s : Str} (hpat : pat ≠ [])
    (h : splitFirst pat s = none) :
    globalRemove pat s = s := by
  rw [globalRemove]
  rw [dif_neg hpat]
  split
  case _ a2 b2 heq => rw [h] at heq; cases heq
  case _ => rfl

theorem removeAllFuel_eq_globalRemove {pat : Str} (hpat : pat ≠ []) :
    ∀ (f : Nat) (s : Str), s.length ≤ f →
    removeAllFuel pat f s = globalRemove pat s := by
  intro f
  induction f with
  | zero =>
      intro s hs
      rw [Nat.le_zero, List.length_eq_zero] at hs
      subst hs
      rw [globalRemove_of_none hpat (show splitFirst pat [] = none from rfl)]
      rfl
  | succ f ih =>
      intro s hs
      cases s with
      | nil =>
          rw [globalRemove_of_none hpat (show splitFirst pat [] = none from rfl)]
          rfl
      | cons c s =>
          unfold removeAllFuel
          by_cases hp : pat.isPrefixOf (c :: s) = true
          · rw [if_pos ⟨hpat, hp⟩]
            have hsplit : splitFirst pat (c :: s) = some ([], (c :: s).drop pat.length) := by
              unfold splitFirst
              rw [if_pos hp]
            rw [globalRemove_of_split hpat hsplit, List.nil_append]
            have hdrop : (c :: s).drop pat.length = s.drop (pat.length - 1) := by
              cases pat with
              | nil => exact absurd rfl hpat
              | cons p0 pr => simp
            rw [← hdrop]
            have hsl : s.length ≤ f := by
              simpa using Nat.le_of_succ_le_succ hs
            have hple : 1 ≤ pat.length := List.length_pos.mpr hpat
            exact ih _ (by rw [List.length_drop]; simp only [List.length_cons]; omega)
          · rw [if_neg (by intro hcon; exact hp hcon.2)]
            have hrec := ih s (Nat.le_of_succ_le_succ hs)
            cases hsp : splitFirst pat s with
            | some p =>
                obtain ⟨a, b⟩ := p
                have hsplit : splitFirst pat (c :: s) = some (c :: a, b) := by
                  unfold splitFirst
                  rw [if_neg hp, hsp]
                rw [globalRemove_of_split hpat hsplit, hrec,
                    globalRemove_of_split hpat hsp]
                rfl
            | none =>
                have hsplit : splitFirst pat (c :: s) = none := by
                  unfold splitFirst
                  rw [if_neg hp, hsp]
                rw [globalRemove_of_none hpat hsplit, hrec,
                    globalRemove_of_none hpat hsp]

theorem addr_problemchars_ne_nil :
    ∀ {s pc : Str}, addr_problemchars s = some pc → pc ≠ [] := by
  intro s
  induction s with
  | nil => intro pc h; cases h
  | cons c s ih =>
      intro pc h
      unfold addr_problemchars at h
      by_cases hc : c = '('
      · rw [if_pos hc] at h
        dsimp only at h
        cases hl : lastIdxOf ')' (s.takeWhile (fun x => x ≠ '\n')) with
        | some j => rw [hl] at h; cases h; simp
        | none => rw [hl] at h; exact ih h
      · rw [if_neg hc] at h
        by_cases hy : (['y', 'e', 's'] : Str).isPrefixOf (c :: s) = true
        · rw [if_pos hy] at h; cases h; simp
        · rw [if_neg hy] at h; exact ih h

/-- Claim C6 amended: when the punctuation search matches, the replace
removes every left-to-right occurrence of the matched substring from
the value — repeated splitting at the first occurrence — and not only
the first occurrence. -/
theorem C6_punct_removes_all_occurrences {s pc : Str}
    (h : addr_problemchars s = some pc) :
    removeAll pc s = globalRemove pc s :=
  removeAllFuel_eq_globalRemove (addr_problemchars_ne_nil h) s.length s (Nat.le_refl _)

/-- Witness for claim C6 at the value yesyes, whose two occurrences of
the match are both removed. -/
theorem C6_punct_removes_all_occurrences_witness :
    addr_problemchars (str "yesyes") = some (str "yes") ∧
    removeAll (str "yes") (str "yesyes") = globalRemove (str "yes") (str "yesyes") :=
  ⟨by decide, C6_punct_removes_all_occurrences (by decide)⟩

/-! The lat / lon locals and the pos projection. -/

/-- Final value of the lat local after scanning an attribute list. -/
def stepLat (cur : Option Str) : List (Str × Str) → Option Str
  | [] => cur
  | (k, v) :: rest => stepLat (if k = str "lat" then some v else cur) rest

/-- Final value of the lon local after scanning an attribute list. -/
def stepLon (cur : Option Str) : List (Str × Str) → Option Str
  | [] => cur
  | (k, v) :: rest =>
      stepLon (if k = str "lat" then cur else if k = str "lon" then some v else cur) rest

/-- The update the lat / lon branch applies to the two locals. -/
def coordUpdate (k v : Str) (lat lon : Option Str) : Option Str × Option Str :=
  if k = str "lat" then (some v, lon)
  else if k = str "lon" then (lat, some v)
  else (lat, lon)

/-- Projection of the attribute loop onto the pos component: the same
lat / lon bookkeeping, detached from the rest of the record. -/
def posOutcome :
    Option Str → Option Str → Option (ℚ × ℚ) → List (Str × Str) →
      Except ShapeErr (Option (ℚ × ℚ))
  | _, _, pos, [] => Except.ok pos
  | lat, lon, pos, (k, v) :: rest =>
      if k = str "lat" ∨ k = str "lon" then
        if truthy (coordUpdate k v lat lon).1 ∧ truthy (coordUpdate k v lat lon).2 then
          match parseFloat ((coordUpdate k v lat lon).1.getD []),
                parseFloat ((coordUpdate k v lat lon).2.getD []) with
          | some a, some b =>
              posOutcome (coordUpdate k v lat lon).1 (coordUpdate k v lat lon).2
                (some (a, b)) rest
          | _, _ => Except.error ShapeErr.valueError
        else
          posOutcome (coordUpdate k v lat lon).1 (coordUpdate k v lat lon).2 pos rest
      else posOutcome lat lon pos rest

theorem mem_CREATED_not_coord {a : Str} (ha : a ∈ CREATED) :
    ¬(a = str "lat" ∨ a = str "lon") := by
  fin_cases ha <;> decide

theorem shapeAttrs_posOutcome {tags : List (Str × Str)} :
    ∀ (l : List (Str × Str)) (st : AttrSt),
    (∀ st2, shapeAttrs tags st l = Except.ok st2 →
        posOutcome st.lat st.lon st.node.pos l = Except.ok st2.node.pos) ∧
    (∀ er, shapeAttrs tags st l = Except.error er →
        posOutcome st.lat st.lon st.node.pos l = Except.error er) := by
  intro l
  induction l with
  | nil =>
      intro st
      constructor
      · intro st2 h
        cases h
        rfl
      · intro er h
        cases h
  | cons p l ih =>
      intro st
      obtain ⟨a, v⟩ := p
      by_cases hcr : a ∈ CREATED
      · -- a CREATED attribute leaves the coordinates and pos unchanged
        have hcoord := mem_CREATED_not_coord hcr
        have hstep : processAttr st a v = Except.ok
            { st with node := { st.node with
              created := some (alInsert (st.node.created.getD []) a (nfkc v)) } } := by
          unfold processAttr
          rw [if_pos hcr]
        constructor
        · intro st2 h
          unfold shapeAttrs at h
          rw [hstep] at h
          simp only [Bind.bind, Except.bind] at h
          unfold posOutcome
          rw [if_neg hcoord]
          have := (ih _).1 st2 h
          simpa [(routeTags_parts tags _).2.1] using this
        · intro er h
          unfold shapeAttrs at h
          rw [hstep] at h
          simp only [Bind.bind, Except.bind] at h
          unfold posOutcome
          rw [if_neg hcoord]
          have := (ih _).2 er h
          simpa [(routeTags_parts tags _).2.1] using this
      · by_cases hco : a = str "lat" ∨ a = str "lon"
        · -- the lat / lon branch
          have hstep : processAttr st a v = checkLatLon
              (if a = str "lat" then { st with lat := some v }
               else if a = str "lon" then { st with lon := some v } else st) := by
            unfold processAttr
            rw [if_neg hcr, if_pos hco]
          have hU1 : (if a = str "lat" then { st with lat := some v }
              else if a = str "lon" then { st with lon := some v } else st).lat
                = (coordUpdate a v st.lat st.lon).1 := by
            unfold coordUpdate
            split_ifs <;> rfl
          have hU2 : (if a = str "lat" then { st with lat := some v }
              else if a = str "lon" then { st with lon := some v } else st).lon
                = (coordUpdate a v st.lat st.lon).2 := by
            unfold coordUpdate
            split_ifs <;> rfl
          have hU3 : (if a = str "lat" then { st with lat := some v }
              else if a = str "lon" then { st with lon := some v } else st).node
                = st.node := by
            split_ifs <;> rfl
          constructor
          · intro st2 h
            unfold shapeAttrs at h
            rw [hstep] at h
            unfold checkLatLon at h
            rw [hU1, hU2, hU3] at h
            unfold posOutcome
            rw [if_pos hco]
            by_cases htr : truthy (coordUpdate a v st.lat st.lon).1 = true ∧
                truthy (coordUpdate a v st.lat st.lon).2 = true
            · rw [if_pos htr] at h ⊢
              cases hpa : parseFloat ((coordUpdate a v st.lat st.lon).1.getD []) with
              | none =>
                  rw [hpa] at h
                  simp only [Bind.bind, Except.bind] at h
                  cases h
              | some qa =>
                  cases hpb : parseFloat ((coordUpdate a v st.lat st.lon).2.getD []) with
                  | none =>
                      rw [hpa, hpb] at h
                      simp only [Bind.bind, Except.bind] at h
                      cases h
                  | some qb =>
                      rw [hpa, hpb] at h
                      simp only [Bind.bind, Except.bind] at h
                      have := (ih _).1 st2 h
                      simpa [hU1, hU2, (routeTags_parts tags _).2.1] using this
            · rw [if_neg htr] at h ⊢
              simp only [Bind.bind, Except.bind] at h
              have := (ih _).1 st2 h
              simpa [hU1, hU2, hU3, (routeTags_parts tags _).2.1] using this
          · intro er h
            unfold shapeAttrs at h
            rw [hstep] at h
            unfold checkLatLon at h
            rw [hU1, hU2, hU3] at h
            unfold posOutcome
            rw [if_pos hco]
            by_cases htr : truthy (coordUpdate a v st.lat st.lon).1 = true ∧
                truthy (coordUpdate a v st.lat st.lon).2 = true
            · rw [if_pos htr] at h ⊢
              cases hpa : parseFloat ((coordUpdate a v st.lat st.lon).1.getD []) with
              | none =>
                  rw [hpa] at h
                  simp only [Bind.bind, Except.bind] at h
                  cases h
                  rfl
              | some qa =>
                  cases hpb : parseFloat ((coordUpdate a v st.lat st.lon).2.getD []) with
                  | none =>
                      rw [hpa, hpb] at h
                      simp only [Bind.bind, Except.bind] at h
                      cases h
                      rfl
                  | some qb =>
                      rw [hpa, hpb] at h
                      simp only [Bind.bind, Except.bind] at h
                      have := (ih _).2 er h
                      simpa [hU1, hU2, (routeTags_parts tags _).2.1] using this
            · rw [if_neg htr] at h ⊢
              simp only [Bind.bind, Except.bind] at h
              have := (ih _).2 er h
              simpa [hU1, hU2, hU3, (routeTags_parts tags _).2.1] using this
        · -- a plain attribute
          have hstep : processAttr st a v = Except.ok
              { st with node := { st.node with
                fields := alInsert st.node.fields a (nfkc v) } } := by
            unfold processAttr
            rw [if_neg hcr, if_neg hco]
          constructor
          · intro st2 h
            unfold shapeAttrs at h
            rw [hstep] at h
            simp only [Bind.bind, Except.bind] at h
            unfold posOutcome
            rw [if_neg hco]
            have := (ih _).1 st2 h
            simpa [(routeTags_parts tags _).2.1] using this
          · intro er h
            unfold shapeAttrs at h
            rw [hstep] at h
            simp only [Bind.bind, Except.bind] at h
            unfold posOutcome
            rw [if_neg hco]
            have := (ih _).2 er h
            simpa [(routeTags_parts tags _).2.1] using this

theorem stepLat_no_key :
    ∀ {l : List (Str × Str)} {cur : Option Str},
    (str "lat") ∉ l.map Prod.fst → stepLat cur l = cur := by
  intro l
  induction l with
  | nil => intro cur _; rfl
  | cons p l ih =>
      intro cur h
      obtain ⟨k, v⟩ := p
      have hk : k ≠ str "lat" := by
        intro hcon
        exact h (by simp [hcon])
      unfold stepLat
      rw [if_neg hk]
      exact ih (fun hm => h (by simp; right; simpa using hm))

theorem stepLon_no_key :
    ∀ {l : List (Str × Str)} {cur : Option Str},
    (str "lon") ∉ l.map Prod.fst → stepLon cur l = cur := by
  intro l
  induction l with
  | nil => intro cur _; rfl
  | cons p l ih =>
      intro cur h
      obtain ⟨k, v⟩ := p
      have hk : k ≠ str "lon" := by
        intro hcon
        exact h (by simp [hcon])
      have hrec : ∀ cur2 : Option Str, stepLon cur2 l = cur2 :=
        fun cur2 => ih (fun hm => h (by simp; right; simpa using hm))
      unfold stepLon
      by_cases hk1 : k = str "lat"
      · rw [if_pos hk1]
        exact hrec cur
      · rw [if_neg hk1, if_neg hk]
        exact hrec cur

theorem stepLat_cons (cur : Option Str) (k v : Str) (rest : List (Str × Str)) :
    stepLat cur ((k, v) :: rest)
      = stepLat (if k = str "lat" then some v else cur) rest := rfl

theorem stepLon_cons (cur : Option Str) (k v : Str) (rest : List (Str × Str)) :
    stepLon cur ((k, v) :: rest)
      = stepLon (if k = str "lat" then cur else if k = str "lon" then some v else cur)
          rest := rfl

theorem posOutcome_char :
    ∀ (rest : List (Str × Str)) (lat lon : Option Str) (pos : Option (ℚ × ℚ)),
    (rest.map Prod.fst).Nodup →
    ((str "lat") ∈ rest.map Prod.fst → lat = none) →
    ((str "lon") ∈ rest.map Prod.fst → lon = none) →
    (truthy lat = true ∧ truthy lon = true →
      ∃ a b, parseFloat (lat.getD []) = some a ∧ parseFloat (lon.getD []) = some b ∧
        pos = some (a, b)) →
    posOutcome lat lon pos rest =
      (if truthy (stepLat lat rest) = true ∧ truthy (stepLon lon rest) = true then
        match parseFloat ((stepLat lat rest).getD []),
              parseFloat ((stepLon lon rest).getD []) with
        | some a, some b => Except.ok (some (a, b))
        | _, _ => Except.error ShapeErr.valueError
      else Except.ok pos) := by
  intro rest
  induction rest with
  | nil =>
      intro lat lon pos hnd h2 h3 h4
      by_cases htr : truthy lat = true ∧ truthy lon = true
      · rw [if_pos (by exact htr)]
        obtain ⟨a, b, hpa, hpb, hpos⟩ := h4 htr
        unfold posOutcome
        rw [show stepLat lat [] = lat from rfl, show stepLon lon [] = lon from rfl,
            hpa, hpb, hpos]
      · rw [if_neg (by exact htr)]
        rfl
  | cons p rest ih =>
      intro lat lon pos hnd h2 h3 h4
      obtain ⟨k, v⟩ := p
      have hnd0 : (k :: rest.map Prod.fst).Nodup := by simpa using hnd
      have hnd' := List.nodup_cons.mp hnd0
      by_cases hk1 : k = str "lat"
      · subst hk1
        have hlatnot : (str "lat") ∉ rest.map Prod.fst := hnd'.1
        have hsl : stepLat lat ((str "lat", v) :: rest) = some v := by
          rw [stepLat_cons, if_pos rfl]
          exact stepLat_no_key hlatnot
        have hso : stepLon lon ((str "lat", v) :: rest) = stepLon lon rest := by
          rw [stepLon_cons, if_pos rfl]
        have hcu : coordUpdate (str "lat") v lat lon = (some v, lon) := by
          unfold coordUpdate
          rw [if_pos rfl]
        rw [hsl, hso]
        unfold posOutcome
        rw [if_pos (Or.inl rfl)]
        simp only [hcu]
        by_cases htr : truthy (some v) = true ∧ truthy lon = true
        · have hlonnot : (str "lon") ∉ rest.map Prod.fst := by
            intro hmem
            have hz := h3 (by simp; right; simpa using hmem)
            rw [hz] at htr
            simpa [truthy] using htr.2
          have hsolon : stepLon lon rest = lon := stepLon_no_key hlonnot
          rw [if_pos htr, hsolon, if_pos htr]
          cases hpa : parseFloat ((some v).getD []) with
          | none => rfl
          | some a =>
              cases hpb : parseFloat (lon.getD []) with
              | none => rfl
              | some b =>
                  dsimp only
                  have ihe := ih (some v) lon (some (a, b)) hnd'.2
                    (fun hm => absurd hm hlatnot)
                    (fun hm => h3 (by simp; right; simpa using hm))
                    (fun _ => ⟨a, b, hpa, hpb, rfl⟩)
                  rw [ihe, stepLat_no_key hlatnot, hsolon, if_pos htr, hpa, hpb]
        · rw [if_neg htr]
          have ihe := ih (some v) lon pos hnd'.2
            (fun hm => absurd hm hlatnot)
            (fun hm => h3 (by simp; right; simpa using hm))
            (fun hcon => absurd hcon htr)
          rw [ihe, stepLat_no_key hlatnot]
      · by_cases hk2 : k = str "lon"
        · subst hk2
          have hlonnot : (str "lon") ∉ rest.map Prod.fst := hnd'.1
          have hsl : stepLat lat ((str "lon", v) :: rest) = stepLat lat rest := by
            rw [stepLat_cons, if_neg hk1]
          have hso : stepLon lon ((str "lon", v) :: rest) = stepLon (some v) rest := by
            rw [stepLon_cons, if_neg hk1, if_pos rfl]
          have hcu : coordUpdate (str "lon") v lat lon = (lat, some v) := by
            unfold coordUpdate
            rw [if_neg hk1, if_pos rfl]
          rw [hsl, hso]
          unfold posOutcome
          rw [if_pos (Or.inr rfl)]
          simp only [hcu]
          by_cases htr : truthy lat = true ∧ truthy (some v) = true
          · have hlatnot : (str "lat") ∉ rest.map Prod.fst := by
              intro hmem
              have hz := h2 (by simp; right; simpa using hmem)
              rw [hz] at htr
              simpa [truthy] using htr.1
            have hsolat : stepLat lat rest = lat := stepLat_no_key hlatnot
            have hsolon : stepLon (some v) rest = some v := stepLon_no_key hlonnot
            rw [if_pos htr, hsolat, hsolon, if_pos htr]
            cases hpa : parseFloat (lat.getD []) with
            | none => rfl
            | some a =>
                cases hpb : parseFloat ((some v).getD []) with
                | none => rfl
                | some b =>
                    dsimp only
                    have ihe := ih lat (some v) (some (a, b)) hnd'.2
                      (fun hm => h2 (by simp; right; simpa using hm))
                      (fun hm => absurd hm hlonnot)
                      (fun _ => ⟨a, b, hpa, hpb, rfl⟩)
                    rw [ihe, hsolat, hsolon, if_pos htr, hpa, hpb]
          · rw [if_neg htr]
            have ihe := ih lat (some v) pos hnd'.2
              (fun hm => h2 (by simp; right; simpa using hm))
              (fun hm => absurd hm hlonnot)
              (fun hcon => absurd hcon htr)
            rw [ihe, stepLon_no_key hlonnot]
        · have hsl : stepLat lat ((k, v) :: rest) = stepLat lat rest := by
            rw [stepLat_cons, if_neg hk1]
          have hso : stepLon lon ((k, v) :: rest) = stepLon lon rest := by
            rw [stepLon_cons, if_neg hk1, if_neg hk2]
          rw [hsl, hso]
          unfold posOutcome
          rw [if_neg (by rintro (h | h) <;> [exact hk1 h; exact hk2 h])]
          exact ih lat lon pos hnd'.2
            (fun hm => h2 (by simp; right; simpa using hm))
            (fun hm => h3 (by simp; right; simpa using hm))
            h4

theorem truthy_some {s : Str} (h : s ≠ []) : truthy (some s) = true := by
  unfold truthy
  cases s with
  | nil => exact absurd rfl h
  | cons a t => rfl

theorem ne_of_truthy {s : Str} (h : truthy (some s) = true) : s ≠ [] := by
  intro hcon
  subst hcon
  simpa [truthy] using h

theorem stepLat_of_mem : ∀ {l : List (Str × Str)} {w : Str} (cur : Option Str),
    (l.map Prod.fst).Nodup → (str "lat", w) ∈ l → stepLat cur l = some w := by
  intro l
  induction l with
  | nil => intro w cur _ hm; cases hm
  | cons p l ih =>
      intro w cur hnd hm
      obtain ⟨k, v⟩ := p
      have hnd0 : (k :: l.map Prod.fst).Nodup := by simpa using hnd
      have hnd' := List.nodup_cons.mp hnd0
      rw [stepLat_cons]
      rcases List.mem_cons.mp hm with heq | hmem
      · injection heq with h1 h2
        rw [if_pos h1.symm, stepLat_no_key (by rw [← h1] at hnd'; exact hnd'.1), h2]
      · by_cases hk : k = str "lat"
        · exfalso
          apply hnd'.1
          rw [hk]
          exact List.mem_map_of_mem Prod.fst hmem
        · rw [if_neg hk]
          exact ih cur hnd'.2 hmem

theorem stepLon_of_mem : ∀ {l : List (Str × Str)} {w : Str} (cur : Option Str),
    (l.map Prod.fst).Nodup → (str "lon", w) ∈ l → stepLon cur l = some w := by
  intro l
  induction l with
  | nil => intro w cur _ hm; cases hm
  | cons p l ih =>
      intro w cur hnd hm
      obtain ⟨k, v⟩ := p
      have hnd0 : (k :: l.map Prod.fst).Nodup := by simpa using hnd
      have hnd' := List.nodup_cons.mp hnd0
      rw [stepLon_cons]
      rcases List.mem_cons.mp hm with heq | hmem
      · injection heq with h1 h2
        have hk1 : k ≠ str "lat" := by rw [← h1]; decide
        rw [if_neg hk1, if_pos h1.symm,
            stepLon_no_key (by rw [← h1] at hnd'; exact hnd'.1), h2]
      · by_cases hk : k = str "lon"
        · exfalso
          apply hnd'.1
          rw [hk]
          exact List.mem_map_of_mem Prod.fst hmem
        · by_cases hk1 : k = str "lat"
          · rw [if_pos hk1]
            exact ih cur hnd'.2 hmem
          · rw [if_neg hk1, if_neg hk]
            exact ih cur hnd'.2 hmem

theorem stepLat_cases : ∀ {l : List (Str × Str)} {cur : Option Str} {w : Str},
    stepLat cur l = some w → (str "lat", w) ∈ l ∨ cur = some w := by
  intro l
  induction l with
  | nil => intro cur w h; right; exact h
  | cons p l ih =>
      intro cur w h
      obtain ⟨k, v⟩ := p
      rw [stepLat_cons] at h
      by_cases hk : k = str "lat"
      · rw [if_pos hk] at h
        rcases ih h with hin | heq
        · exact Or.inl (List.mem_cons_of_mem _ hin)
        · injection heq with hv
          subst hv
          exact Or.inl (by rw [hk]; exact List.mem_cons_self _ _)
      · rw [if_neg hk] at h
        rcases ih h with hin | heq
        · exact Or.inl (List.mem_cons_of_mem _ hin)
        · exact Or.inr heq

theorem stepLon_cases : ∀ {l : List (Str × Str)} {cur : Option Str} {w : Str},
    stepLon cur l = some w → (str "lon", w) ∈ l ∨ cur = some w := by
  intro l
  induction l with
  | nil => intro cur w h; right; exact h
  | cons p l ih =>
      intro cur w h
      obtain ⟨k, v⟩ := p
      rw [stepLon_cons] at h
      by_cases hk1 : k = str "lat"
      · rw [if_pos hk1] at h
        rcases ih h with hin | heq
        · exact Or.inl (List.mem_cons_of_mem _ hin)
        · exact Or.inr heq
      · by_cases hk : k = str "lon"
        · rw [if_neg hk1, if_pos hk] at h
          rcases ih h with hin | heq
          · exact Or.inl (List.mem_cons_of_mem _ hin)
          · injection heq with hv
            subst hv
            exact Or.inl (by rw [hk]; exact List.mem_cons_self _ _)
        · rw [if_neg hk1, if_neg hk] at h
          rcases ih h with hin | heq
          · exact Or.inl (List.mem_cons_of_mem _ hin)
          · exact Or.inr heq

/-! Claim C4, amended. -/

/-- A string that is a fixed point of the text normalization,
characterwise. -/
def strNormalized (s : Str) : Prop := ∀ c ∈ s, nfkcChar c = c

/-- Every value of a dictionary is normalized. -/
def dictNormalized (m : Dict) : Prop := ∀ p ∈ m, strNormalized p.2

/-- Every string value of the record outside node_refs is normalized. -/
def nodeNormalized (n : Node) : Prop :=
  strNormalized n.type ∧
  (∀ m, n.created = some m → dictNormalized m) ∧
  dictNormalized n.fields ∧
  (∀ t, n.type_m = some t → strNormalized t) ∧
  (∀ m, n.address = some m → dictNormalized m)

theorem nfkcChar_eq_self {c : Char} (h0 : c ≠ '０') (h1 : c ≠ '１') (h2 : c ≠ '２')
    (h3 : c ≠ '３') (h4 : c ≠ '４') (h5 : c ≠ '５') (h6 : c ≠ '６') (h7 : c ≠ '７')
    (h8 : c ≠ '８') (h9 : c ≠ '９') (h10 : c ≠ '　') : nfkcChar c = c := by
  unfold nfkcChar
  rw [if_neg h0, if_neg h1, if_neg h2, if_neg h3, if_neg h4, if_neg h5, if_neg h6,
      if_neg h7, if_neg h8, if_neg h9, if_neg h10]

theorem nfkcChar_idem (c : Char) : nfkcChar (nfkcChar c) = nfkcChar c := by
  by_cases h0 : c = '０'
  · subst h0; decide
  by_cases h1 : c = '１'
  · subst h1; decide
  by_cases h2 : c = '２'
  · subst h2; decide
  by_cases h3 : c = '３'
  · subst h3; decide
  by_cases h4 : c = '４'
  · subst h4; decide
  by_cases h5 : c = '５'
  · subst h5; decide
  by_cases h6 : c = '６'
  · subst h6; decide
  by_cases h7 : c = '７'
  · subst h7; decide
  by_cases h8 : c = '８'
  · subst h8; decide
  by_cases h9 : c = '９'
  · subst h9; decide
  by_cases h10 : c = '　'
  · subst h10; decide
  have hc := nfkcChar_eq_self h0 h1 h2 h3 h4 h5 h6 h7 h8 h9 h10
  rw [hc]
  exact hc

theorem nfkc_normalized (s : Str) : strNormalized (nfkc s) := by
  intro c hc
  rw [nfkc] at hc
  obtain ⟨d, _, hd⟩ := List.mem_map.mp hc
  rw [← hd]
  exact nfkcChar_idem d

theorem strNormalized_mono {s s2 : Str} (hsub : s2 ⊆ s) (h : strNormalized s) :
    strNormalized s2 :=
  fun c hc => h c (hsub hc)

theorem strNormalized_append {s s2 : Str} (h : strNormalized s) (h2 : strNormalized s2) :
    strNormalized (s ++ s2) := by
  intro c hc
  rcases List.mem_append.mp hc with hin | hin
  · exact h c hin
  · exact h2 c hin

theorem strNormalized_nil : strNormalized [] := fun c hc => absurd hc (List.not_mem_nil c)

theorem dictNormalized_insert {m : Dict} {k v : Str}
    (hm : dictNormalized m) (hv : strNormalized v) :
    dictNormalized (alInsert m k v) := by
  induction m with
  | nil =>
      intro p hp
      have heq := List.mem_singleton.mp hp
      rw [heq]
      exact hv
  | cons q m ih =>
      obtain ⟨k0, v0⟩ := q
      intro p hp
      unfold alInsert at hp
      by_cases hk : k0 = k
      · rw [if_pos hk] at hp
        rcases List.mem_cons.mp hp with heq | hin
        · rw [heq]
          exact hv
        · exact hm p (List.mem_cons_of_mem _ hin)
      · rw [if_neg hk] at hp
        rcases List.mem_cons.mp hp with heq | hin
        · rw [heq]
          exact hm (k0, v0) (List.mem_cons_self _ _)
        · exact ih (fun q2 hq2 => hm q2 (List.mem_cons_of_mem _ hq2)) p hin

theorem dictNormalized_lookup {m : Dict} {k v : Str}
    (hm : dictNormalized m) (h : alLookup m k = some v) : strNormalized v := by
  induction m with
  | nil => cases h
  | cons q m ih =>
      obtain ⟨k0, v0⟩ := q
      unfold alLookup at h
      by_cases hk : k0 = k
      · rw [if_pos hk] at h
        injection h with hv
        rw [← hv]
        exact hm (k0, v0) (List.mem_cons_self _ _)
      · rw [if_neg hk] at h
        exact ih (fun q2 hq2 => hm q2 (List.mem_cons_of_mem _ hq2)) h

theorem removeAllFuel_subset (old : Str) :
    ∀ (f : Nat) (s : Str), removeAllFuel old f s ⊆ s := by
  intro f
  induction f with
  | zero => intro s; exact fun c hc => hc
  | succ f ih =>
      intro s
      cases s with
      | nil => intro c hc; exact hc
      | cons x s =>
          unfold removeAllFuel
          split
          · intro c hc
            have := ih (s.drop (old.length - 1)) hc
            exact List.mem_cons_of_mem _ (List.drop_subset _ _ this)
          · intro c hc
            rcases List.mem_cons.mp hc with rfl | hin
            · exact List.mem_cons_self _ _
            · exact List.mem_cons_of_mem _ (ih s hin)

theorem removeAll_subset (old s : Str) : removeAll old s ⊆ s :=
  removeAllFuel_subset old s.length s

theorem re_city_subset : ∀ {s t : Str}, re_city s = some t → t ⊆ s := by
  intro s
  induction s with
  | nil => intro t h; cases h
  | cons c s ih =>
      intro t h
      unfold re_city at h
      by_cases hc : c = '府'
      · rw [if_pos hc] at h
        exact fun d hd => List.mem_cons_of_mem _ (ih h hd)
      · rw [if_neg hc] at h
        dsimp only at h
        cases hl : lastIdxOf '市' ((c :: s).takeWhile (fun x => x ≠ '府')) with
        | some j =>
            rw [hl] at h
            dsimp only at h
            by_cases hj : 1 ≤ j
            · rw [if_pos hj] at h
              injection h with ht
              rw [← ht]
              intro d hd
              have h1 := List.take_subset (j + 1) _ hd
              exact List.takeWhile_subset _ h1
            · rw [if_neg hj] at h
              exact fun d hd => List.mem_cons_of_mem _ (ih h hd)
        | none =>
            rw [hl] at h
            dsimp only at h
            exact fun d hd => List.mem_cons_of_mem _ (ih h hd)

theorem re_ward_subset : ∀ {s t : Str}, re_ward s = some t → t ⊆ s := by
  intro s
  induction s with
  | nil => intro t h; cases h
  | cons c s ih =>
      intro t h
      unfold re_ward at h
      by_cases hc : c = '市'
      · rw [if_pos hc] at h
        exact fun d hd => List.mem_cons_of_mem _ (ih h hd)
      · rw [if_neg hc] at h
        dsimp only at h
        cases hl : lastIdxOf '区' ((c :: s).takeWhile (fun x => x ≠ '市')) with
        | some j =>
            rw [hl] at h
            dsimp only at h
            by_cases hj : 1 ≤ j
            · rw [if_pos hj] at h
              injection h with ht
              rw [← ht]
              intro d hd
              rcases List.mem_append.mp hd with hin | hin
              · exact List.take_subset _ _ hin
              · exact List.drop_subset _ _ (List.takeWhile_subset _ hin)
            · rw [if_neg hj] at h
              exact fun d hd => List.mem_cons_of_mem _ (ih h hd)
        | none =>
            rw [hl] at h
            dsimp only at h
            exact fun d hd => List.mem_cons_of_mem _ (ih h hd)

theorem dictNormalized_nil : dictNormalized [] :=
  fun p hp => absurd hp (List.not_mem_nil p)

theorem addr_getD_normalized {n : Node} (hn : nodeNormalized n) :
    dictNormalized (n.address.getD []) := by
  cases ha : n.address with
  | none => exact dictNormalized_nil
  | some m => exact hn.2.2.2.2 m ha

theorem created_getD_normalized {n : Node} (hn : nodeNormalized n) :
    dictNormalized (n.created.getD []) := by
  cases ha : n.created with
  | none => exact dictNormalized_nil
  | some m => exact hn.2.1 m ha

theorem routeTag_normalized {n : Node} (hn : nodeNormalized n) (tk tv : Str) :
    nodeNormalized (routeTag n tk tv) := by
  unfold routeTag
  by_cases h1 : problemchars tk = true
  · rw [if_pos h1]; exact hn
  · rw [if_neg h1]
    by_cases h2 : (str "addr:").isPrefixOf tk = true
    · rw [if_pos h2]
      dsimp only
      by_cases h3 : lower_colon (tk.drop 5) = true
      · rw [if_pos h3]; exact hn
      · rw [if_neg h3]
        refine ⟨hn.1, hn.2.1, hn.2.2.1, hn.2.2.2.1, ?_⟩
        intro m hm
        injection hm with hm2
        rw [← hm2]
        exact dictNormalized_insert (addr_getD_normalized hn) (nfkc_normalized tv)
    · rw [if_neg h2]
      by_cases h4 : tk = str "type"
      · rw [if_pos h4]
        refine ⟨hn.1, hn.2.1, hn.2.2.1, ?_, hn.2.2.2.2⟩
        intro t ht
        injection ht with ht2
        rw [← ht2]
        exact nfkc_normalized tv
      · rw [if_neg h4]
        exact ⟨hn.1, hn.2.1, dictNormalized_insert hn.2.2.1 (nfkc_normalized tv),
               hn.2.2.2.1, hn.2.2.2.2⟩

theorem routeTags_normalized :
    ∀ (ts : List (Str × Str)) {n : Node}, nodeNormalized n →
    nodeNormalized (routeTags n ts) := by
  intro ts
  induction ts with
  | nil => intro n hn; exact hn
  | cons p ts ih =>
      intro n hn
      exact ih (routeTag_normalized hn p.1 p.2)

theorem checkLatLon_normalized {st st2 : AttrSt} (h : checkLatLon st = Except.ok st2)
    (hn : nodeNormalized st.node) : nodeNormalized st2.node := by
  unfold checkLatLon at h
  split at h
  · split at h
    · cases h
      exact ⟨hn.1, hn.2.1, hn.2.2.1, hn.2.2.2.1, hn.2.2.2.2⟩
    · cases h
  · cases h
    exact hn

theorem processAttr_normalized {st st2 : AttrSt} {a v : Str}
    (h : processAttr st a v = Except.ok st2)
    (hn : nodeNormalized st.node) : nodeNormalized st2.node := by
  unfold processAttr at h
  split at h
  · cases h
    refine ⟨hn.1, ?_, hn.2.2.1, hn.2.2.2.1, hn.2.2.2.2⟩
    intro m hm
    injection hm with hm2
    rw [← hm2]
    exact dictNormalized_insert (created_getD_normalized hn) (nfkc_normalized v)
  · split at h
    · have hnode : (if a = str "lat" then { st with lat := some v }
          else if a = str "lon" then { st with lon := some v } else st).node
            = st.node := by
        split_ifs <;> rfl
      have hn2 : nodeNormalized (if a = str "lat" then { st with lat := some v }
          else if a = str "lon" then { st with lon := some v } else st).node := by
        rw [hnode]
        exact hn
      exact checkLatLon_normalized h hn2
    · cases h
      exact ⟨hn.1, hn.2.1, dictNormalized_insert hn.2.2.1 (nfkc_normalized v),
             hn.2.2.2.1, hn.2.2.2.2⟩

theorem shapeAttrs_normalized {tags : List (Str × Str)} :
    ∀ (l : List (Str × Str)) {st st2 : AttrSt},
    shapeAttrs tags st l = Except.ok st2 → nodeNormalized st.node →
    nodeNormalized st2.node := by
  intro l
  induction l with
  | nil =>
      intro st st2 h hn
      cases h
      exact hn
  | cons p l ih =>
      intro st st2 h hn
      obtain ⟨a, v⟩ := p
      unfold shapeAttrs at h
      cases hp : processAttr st a v with
      | error er => rw [hp] at h; cases h
      | ok st1 =>
          rw [hp] at h
          simp only [Bind.bind, Except.bind] at h
          exact ih h (routeTags_normalized tags (processAttr_normalized hp hn))

/-- Normalization invariant of the cleaning state. -/
def cleanStNormalized (st : CleanSt) : Prop :=
  dictNormalized st.address ∧ (∀ m, st.created = some m → dictNormalized m)

theorem gen1_normalized {addr : Dict} {key t : Str}
    (ht : strNormalized t) (ha : dictNormalized addr) :
    strNormalized (gen1 addr key t).1 ∧ dictNormalized (gen1 addr key t).2 := by
  unfold gen1
  split
  · rename_i pc hpc
    have h1 := strNormalized_mono (removeAll_subset pc t) ht
    exact ⟨h1, dictNormalized_insert ha h1⟩
  · exact ⟨ht, ha⟩

theorem gen2_normalized {orig : Str} {addr : Dict} {key t : Str}
    (ht : strNormalized t) (ha : dictNormalized addr) :
    strNormalized (gen2 orig addr key t).1 ∧ dictNormalized (gen2 orig addr key t).2 := by
  unfold gen2
  split
  · rename_i pc hpc
    have h1 := strNormalized_mono (removeAll_subset pc t) ht
    exact ⟨h1, dictNormalized_insert ha h1⟩
  · exact ⟨ht, ha⟩

theorem gen3_normalized {orig : Str} {addr : Dict} {key t : Str}
    (ht : strNormalized t) (ha : dictNormalized addr) :
    strNormalized (gen3 orig addr key t).1 ∧ dictNormalized (gen3 orig addr key t).2 := by
  unfold gen3
  split
  · rename_i c2 hc2
    have h1 := strNormalized_mono (removeAll_subset [c2] t) ht
    exact ⟨h1, dictNormalized_insert ha h1⟩
  · exact ⟨ht, ha⟩

theorem cleanGenericSteps_normalized {addr : Dict} {key t : Str}
    (ht : strNormalized t) (ha : dictNormalized addr) :
    strNormalized (cleanGenericSteps addr key t).1 ∧
    dictNormalized (cleanGenericSteps addr key t).2 := by
  unfold cleanGenericSteps
  dsimp only
  have h1 := @gen1_normalized addr key t ht ha
  have h2 := @gen2_normalized t (gen1 addr key t).2 key (gen1 addr key t).1 h1.1 h1.2
  exact @gen3_normalized t _ key _ h2.1 h2.2

theorem cityStep_normalized {addr : Dict} {key t : Str}
    (ht : strNormalized t) (ha : dictNormalized addr) :
    strNormalized (cityStep addr key t).1 ∧ dictNormalized (cityStep addr key t).2 := by
  unfold cityStep cityStepB
  have hA : strNormalized (cityStepA addr key t).1 ∧
      dictNormalized (cityStepA addr key t).2 := by
    unfold cityStepA
    cases hc : re_city t with
    | some cg =>
        have hcg := strNormalized_mono (re_city_subset hc) ht
        exact ⟨hcg, dictNormalized_insert ha hcg⟩
    | none => exact ⟨ht, dictNormalized_insert ha strNormalized_nil⟩
  cases hw : re_ward t with
  | some wg =>
      have hwg := strNormalized_mono (re_ward_subset hw) ht
      cases hl : alLookup (cityStepA addr key t).2 (str "street") with
      | some sv =>
          have hsv := dictNormalized_lookup hA.2 hl
          exact ⟨hwg, dictNormalized_insert hA.2 (strNormalized_append hwg hsv)⟩
      | none => exact ⟨hwg, dictNormalized_insert hA.2 hwg⟩
  | none => exact hA

theorem strNormalized_slice {t : Str} (ht : strNormalized t) :
    strNormalized (t.take 3 ++ (t.drop 4).take 4) :=
  strNormalized_append
    (strNormalized_mono (List.take_subset _ _) ht)
    (strNormalized_mono (fun c hc => List.drop_subset _ _ (List.take_subset _ _ hc)) ht)

theorem postStepIfPostcode_normalized {key : Str} {p : Str × Dict}
    (ht : strNormalized p.1) (ha : dictNormalized p.2) :
    dictNormalized (postStepIfPostcode key p) := by
  unfold postStepIfPostcode
  split
  · exact dictNormalized_insert ha (strNormalized_slice ht)
  · exact ha

theorem houseStep_normalized {st st2 : CleanSt} {key t : Str}
    (h : houseStep st key t = Except.ok st2)
    (ht : strNormalized t) (hn : cleanStNormalized st) : cleanStNormalized st2 := by
  unfold houseStep at h
  by_cases hp : re_phonenumber t = true
  · rw [if_pos hp] at h
    cases hc : st.created with
    | none => rw [hc] at h; cases h
    | some cr =>
        rw [hc] at h
        dsimp only at h
        by_cases hk : alHasKey cr (str "phone") = true
        · rw [if_pos hk] at h; cases h; exact hn
        · rw [if_neg hk] at h
          cases h
          refine ⟨dictNormalized_insert hn.1 strNormalized_nil, ?_⟩
          intro m hm
          injection hm with hm2
          rw [← hm2]
          exact dictNormalized_insert (hn.2 cr hc) ht
  · rw [if_neg hp] at h
    by_cases hpc : re_postcode t = true
    · rw [if_pos hpc] at h
      by_cases hk2 : alHasKey st.address (str "postcode") = true
      · rw [if_pos hk2] at h; cases h; exact hn
      · rw [if_neg hk2] at h
        cases h
        refine ⟨?_, hn.2⟩
        exact dictNormalized_insert
          (dictNormalized_insert hn.1 (strNormalized_slice ht)) strNormalized_nil
    · rw [if_neg hpc] at h; cases h; exact hn

theorem cleanUpToCity_normalized {addr : Dict} {key t : Str}
    (ht : strNormalized t) (ha : dictNormalized addr) :
    strNormalized (cleanUpToCity addr key t).1 ∧
    dictNormalized (cleanUpToCity addr key t).2 := by
  unfold cleanUpToCity
  try dsimp only
  have hg := @cleanGenericSteps_normalized addr key t ht ha
  split
  · exact @cityStep_normalized (cleanGenericSteps addr key t).2 key
      (cleanGenericSteps addr key t).1 hg.1 hg.2
  · exact hg

theorem cleanKey_normalized {st st2 : CleanSt} {k : Str}
    (h : cleanKey st k = Except.ok st2) (hn : cleanStNormalized st) :
    cleanStNormalized st2 := by
  unfold cleanKey at h
  cases hl : alLookup st.address k with
  | none => rw [hl] at h; cases h; exact hn
  | some t0 =>
      rw [hl] at h
      dsimp only at h
      have ht0 := dictNormalized_lookup hn.1 hl
      have hu := @cleanUpToCity_normalized st.address k t0 ht0 hn.1
      have hpost := @postStepIfPostcode_normalized k (cleanUpToCity st.address k t0) hu.1 hu.2
      by_cases hh : k = str "housenumber" ∨ k = str "street"
      · rw [if_pos hh] at h
        exact houseStep_normalized h hu.1 ⟨hpost, hn.2⟩
      · rw [if_neg hh] at h
        cases h
        exact ⟨hpost, hn.2⟩

theorem cleanKeys_normalized :
    ∀ (ks : List Str) {st st2 : CleanSt},
    cleanKeys st ks = Except.ok st2 → cleanStNormalized st → cleanStNormalized st2 := by
  intro ks
  induction ks with
  | nil => intro st st2 h hn; cases h; exact hn
  | cons k ks ih =>
      intro st st2 h hn
      obtain ⟨st1, h1, h2⟩ := cleanKeys_cons_inv h
      exact ih h2 (cleanKey_normalized h1 hn)

theorem cleanAddress_normalized {n n2 : Node}
    (h : cleanAddress n = Except.ok n2) (hn : nodeNormalized n) : nodeNormalized n2 := by
  cases ha : n.address with
  | none =>
      rw [cleanAddress_of_none ha] at h
      cases h
      exact hn
  | some addr =>
      rw [cleanAddress_of_some ha] at h
      cases hc : cleanKeys { address := addr, created := n.created } address_key with
      | error er => rw [hc] at h; cases h
      | ok stc =>
          rw [hc] at h
          simp only [Except.bind] at h
          cases h
          have hstc := cleanKeys_normalized address_key hc
            ⟨hn.2.2.2.2 addr ha, fun m hm => hn.2.1 m hm⟩
          refine ⟨hn.1, ?_, hn.2.2.1, hn.2.2.2.1, ?_⟩
          · intro m hm
            exact hstc.2 m hm
          · intro m hm
            injection hm with hm2
            rw [← hm2]
            exact hstc.1

/-- Claim C4 amended: in every produced record, all string values in
the top-level fields, the created dictionary, the address dictionary,
the type discriminant and type_m are normalized (fixed points of the
text normalization); node_refs entries are excluded, being stored raw
(see the counterexample). -/
theorem C4_strings_normalized_except_refs {e : Element} {nd : Node}
    (h : shape_element e = Except.ok (some nd)) : nodeNormalized nd := by
  obtain ⟨htag, st, n1, hs, hc, hnd⟩ := shape_element_ok_inv h
  have hinit : nodeNormalized ({ type := e.tag } : Node) := by
    refine ⟨?_, ?_, dictNormalized_nil, ?_, ?_⟩
    · rcases htag with he | he <;> rw [he] <;> unfold strNormalized <;> decide
    · intro m hm; cases hm
    · intro t ht; cases ht
    · intro m hm; cases hm
  have hst := shapeAttrs_normalized e.attrib hs hinit
  have hn1 := cleanAddress_normalized hc hst
  subst hnd
  obtain ⟨p1, _, p3, p4, p5, p6⟩ := addNodeRefs_parts n1 e
  unfold nodeNormalized
  rw [p1, p3, p4, p5, p6]
  exact hn1

/-- Witness for claim C4 at a node whose uid attribute carries a
full-width digit that normalization rewrites. -/
theorem C4_strings_normalized_except_refs_witness :
    nodeNormalized ⟨str "node", some [(str "uid", str "5")], none, [], none, none, none⟩ :=
  @C4_strings_normalized_except_refs
    ⟨str "node", [(str "uid", str "５")], [], []⟩
    ⟨str "node", some [(str "uid", str "5")], none, [], none, none, none⟩
    (by decide)

/-! Shared-dictionary lemmas. -/

theorem ndLookup_ndInsert_self (m : NodeD) (k : Str) (v : Val) :
    ndLookup (ndInsert m k v) k = some v := by
  induction m with
  | nil => simp [ndInsert, ndLookup]
  | cons p m ih =>
      obtain ⟨k0, v0⟩ := p
      by_cases h : k0 = k
      · simp [ndInsert, ndLookup, h]
      · simpa [ndInsert, ndLookup, h] using ih

theorem ndLookup_ndInsert_ne (m : NodeD) {k k2 : Str} (v : Val) (h : k2 ≠ k) :
    ndLookup (ndInsert m k v) k2 = ndLookup m k2 := by
  induction m with
  | nil => simp [ndInsert, ndLookup, Ne.symm h]
  | cons p m ih =>
      obtain ⟨k0, v0⟩ := p
      by_cases h0 : k0 = k
      · simp [ndInsert, ndLookup, h0, Ne.symm h, h]
      · by_cases h1 : k0 = k2 <;> simp [ndInsert, ndLookup, h0, h1, ih, h]

/-- Successful shaping over the shared dictionary decomposes into the
attribute loop, the address cleaning and the reference collection. -/
theorem shape_elementD_ok_inv {e : Element} {nd : NodeD}
    (h : shape_elementD e = Except.ok (some nd)) :
    (e.tag = str "node" ∨ e.tag = str "way") ∧
    ∃ st n1,
      shapeAttrsD e.tags { node := [(str "type", Val.s e.tag)], lat := none, lon := none }
        e.attrib = Except.ok st ∧
      cleanAddressD st.node = Except.ok n1 ∧ addNodeRefsD n1 e = Except.ok nd := by
  unfold shape_elementD at h
  split at h
  case isTrue htag =>
    refine ⟨htag, ?_⟩
    cases hs : shapeAttrsD e.tags
        { node := [(str "type", Val.s e.tag)], lat := none, lon := none } e.attrib with
    | error er => rw [hs] at h; cases h
    | ok st =>
        rw [hs] at h
        dsimp only at h
        cases hc : cleanAddressD st.node with
        | error er => rw [hc] at h; cases h
        | ok n1 =>
            rw [hc] at h
            dsimp only at h
            cases hr : addNodeRefsD n1 e with
            | error er => rw [hr] at h; cases h
            | ok n2 =>
                rw [hr] at h
                dsimp only at h
                cases h
                exact ⟨st, n1, rfl, hc, hr⟩
  case isFalse => cases h

/-- An attribute-loop error propagates out of shape_elementD. -/
theorem shape_elementD_err_of_attrs {e : Element} {er : ShapeErr}
    (htag : e.tag = str "node" ∨ e.tag = str "way")
    (h : shapeAttrsD e.tags { node := [(str "type", Val.s e.tag)], lat := none, lon := none }
          e.attrib = Except.error er) :
    shape_elementD e = Except.error er := by
  unfold shape_elementD
  rw [if_pos htag, h]

/-! Write-set lemmas over the shared dictionary: which keys each stage
can touch. -/

theorem checkLatLonD_lookup_ne {st st2 : AttrStD} (h : checkLatLonD st = Except.ok st2)
    {q : Str} (hq : q ≠ str "pos") :
    ndLookup st2.node q = ndLookup st.node q := by
  unfold checkLatLonD at h
  split at h
  · split at h
    · cases h
      exact ndLookup_ndInsert_ne _ _ hq
    · cases h
  · cases h; rfl

theorem processAttrD_lookup_ne {st st2 : AttrStD} {a v : Str}
    (h : processAttrD st a v = Except.ok st2) {q : Str}
    (hq1 : q ≠ str "created") (hq2 : q ≠ str "pos") (hq3 : q ≠ a) :
    ndLookup st2.node q = ndLookup st.node q := by
  unfold processAttrD at h
  split at h
  · cases hc : ndLookup st.node (str "created") with
    | none =>
        rw [hc] at h
        dsimp only at h
        cases h
        exact ndLookup_ndInsert_ne _ _ hq1
    | some cv =>
        rw [hc] at h
        cases cv with
        | s w => dsimp only at h; cases h
        | d m =>
            dsimp only at h
            cases h
            exact ndLookup_ndInsert_ne _ _ hq1
        | posv x y => dsimp only at h; cases h
        | refs l => dsimp only at h; cases h
  · split at h
    · have hp := checkLatLonD_lookup_ne h hq2
      have hnode : (if a = str "lat" then { st with lat := some v }
          else if a = str "lon" then { st with lon := some v } else st).node = st.node := by
        split_ifs <;> rfl
      rw [hnode] at hp
      exact hp
    · cases h
      exact ndLookup_ndInsert_ne _ _ hq3

theorem routeTagD_lookup_ne {n n2 : NodeD} {tk tv : Str}
    (h : routeTagD n tk tv = Except.ok n2) {q : Str}
    (hq1 : q ≠ str "address") (hq2 : q ≠ str "type_m") (hq3 : q ≠ tk) :
    ndLookup n2 q = ndLookup n q := by
  unfold routeTagD at h
  split at h
  · cases h; rfl
  · split at h
    · split at h
      · cases h; rfl
      · cases hc : ndLookup n (str "address") with
        | none =>
            rw [hc] at h
            dsimp only at h
            cases h
            exact ndLookup_ndInsert_ne _ _ hq1
        | some cv =>
            rw [hc] at h
            cases cv with
            | s w => dsimp only at h; cases h
            | d m =>
                dsimp only at h
                cases h
                exact ndLookup_ndInsert_ne _ _ hq1
            | posv x y => dsimp only at h; cases h
            | refs l => dsimp only at h; cases h
    · split at h
      · cases h
        exact ndLookup_ndInsert_ne _ _ hq2
      · cases h
        exact ndLookup_ndInsert_ne _ _ hq3

theorem routeTagsD_lookup_ne {q : Str} (hq1 : q ≠ str "address") (hq2 : q ≠ str "type_m") :
    ∀ (ts : List (Str × Str)) (n n2 : NodeD),
    routeTagsD n ts = Except.ok n2 →
    (∀ p : Str × Str, p ∈ ts → q ≠ p.1) →
    ndLookup n2 q = ndLookup n q := by
  intro ts
  induction ts with
  | nil => intro n n2 h _; cases h; rfl
  | cons p ts ih =>
      intro n n2 h hp
      obtain ⟨k, v⟩ := p
      unfold routeTagsD at h
      cases hr : routeTagD n k v with
      | error er => rw [hr] at h; cases h
      | ok n1 =>
          rw [hr] at h
          dsimp only at h
          rw [ih n1 n2 h (fun p2 hp2 => hp p2 (List.mem_cons_of_mem _ hp2))]
          exact routeTagD_lookup_ne hr hq1 hq2 (hp (k, v) (List.mem_cons_self _ _))

theorem shapeAttrsD_lookup_ne {tags : List (Str × Str)} {q : Str}
    (hq1 : q ≠ str "created") (hq2 : q ≠ str "pos")
    (hq3 : q ≠ str "address") (hq4 : q ≠ str "type_m")
    (hqt : ∀ p : Str × Str, p ∈ tags → q ≠ p.1) :
    ∀ (l : List (Str × Str)) (st st2 : AttrStD),
    shapeAttrsD tags st l = Except.ok st2 →
    (∀ p : Str × Str, p ∈ l → q ≠ p.1) →
    ndLookup st2.node q = ndLookup st.node q := by
  intro l
  induction l with
  | nil => intro st st2 h _; cases h; rfl
  | cons p l ih =>
      intro st st2 h hp
      obtain ⟨a, v⟩ := p
      unfold shapeAttrsD at h
      cases hpa : processAttrD st a v with
      | error er => rw [hpa] at h; cases h
      | ok st1 =>
          rw [hpa] at h
          dsimp only at h
          cases hrt : routeTagsD st1.node tags with
          | error er => rw [hrt] at h; cases h
          | ok n2 =>
              rw [hrt] at h
              dsimp only at h
              rw [ih _ st2 h (fun p2 hp2 => hp p2 (List.mem_cons_of_mem _ hp2))]
              show ndLookup n2 q = ndLookup st.node q
              rw [routeTagsD_lookup_ne hq3 hq4 tags _ _ hrt hqt]
              exact processAttrD_lookup_ne hpa hq1 hq2 (hp (a, v) (List.mem_cons_self _ _))

theorem houseStepD_lookup_ne {st st2 : CleanStD} {key t : Str}
    (h : houseStepD st key t = Except.ok st2) {q : Str}
    (hq1 : q ≠ key) (hq3 : q ≠ str "postcode") :
    alLookup st2.address q = alLookup st.address q := by
  unfold houseStepD at h
  by_cases hp : re_phonenumber t = true
  · rw [if_pos hp] at h
    cases hc : st.created with
    | none => rw [hc] at h; cases h
    | some cv =>
        rw [hc] at h
        cases cv with
        | s w => dsimp only at h; cases h
        | d cr =>
            dsimp only at h
            by_cases hk : alHasKey cr (str "phone") = true
            · rw [if_pos hk] at h; cases h; rfl
            · rw [if_neg hk] at h
              cases h
              exact alLookup_alInsert_ne _ _ hq1
        | posv x y => dsimp only at h; cases h
        | refs l => dsimp only at h; cases h
  · rw [if_neg hp] at h
    by_cases hpc : re_postcode t = true
    · rw [if_pos hpc] at h
      by_cases hk : alHasKey st.address (str "postcode") = true
      · rw [if_pos hk] at h; cases h; rfl
      · rw [if_neg hk] at h
        cases h
        dsimp only
        rw [alLookup_alInsert_ne _ _ hq1, alLookup_alInsert_ne _ _ hq3]
    · rw [if_neg hpc] at h; cases h; rfl

theorem cleanKeyD_lookup_ne {st st2 : CleanStD} {key : Str}
    (h : cleanKeyD st key = Except.ok st2) {q : Str}
    (hq1 : q ≠ key) (hq2 : q ≠ str "street") (hq3 : q ≠ str "postcode") :
    alLookup st2.address q = alLookup st.address q := by
  unfold cleanKeyD at h
  cases hl : alLookup st.address key with
  | none => rw [hl] at h; cases h; rfl
  | some t0 =>
      rw [hl] at h
      dsimp only at h
      by_cases hh : key = str "housenumber" ∨ key = str "street"
      · rw [if_pos hh] at h
        have h1 := houseStepD_lookup_ne h hq1 hq3
        dsimp only at h1
        rw [h1, postStepIfPostcode_lookup_ne _ _ hq1,
            cleanUpToCity_lookup_ne _ _ _ hq1 hq2]
      · rw [if_neg hh] at h
        cases h
        dsimp only
        rw [postStepIfPostcode_lookup_ne _ _ hq1,
            cleanUpToCity_lookup_ne _ _ _ hq1 hq2]

theorem cleanKeysD_lookup_ne {q : Str} :
    ∀ (ks : List Str) (st st2 : CleanStD),
    cleanKeysD st ks = Except.ok st2 →
    (∀ k, k ∈ ks → q ≠ k) → q ≠ str "street" → q ≠ str "postcode" →
    alLookup st2.address q = alLookup st.address q := by
  intro ks
  induction ks with
  | nil => intro st st2 h _ _ _; cases h; rfl
  | cons k ks ih =>
      intro st st2 h hk h2 h3
      unfold cleanKeysD at h
      cases hc : cleanKeyD st k with
      | error er => rw [hc] at h; cases h
      | ok st1 =>
          rw [hc] at h
          dsimp only at h
          rw [ih st1 st2 h (fun k2 hk2 => hk k2 (List.mem_cons_of_mem _ hk2)) h2 h3]
          exact cleanKeyD_lookup_ne hc (hk k (List.mem_cons_self _ _)) h2 h3

theorem cleanAddressD_lookup_ne {n n2 : NodeD}
    (h : cleanAddressD n = Except.ok n2) {q : Str}
    (hq1 : q ≠ str "address") (hq2 : q ≠ str "created") :
    ndLookup n2 q = ndLookup n q := by
  unfold cleanAddressD at h
  cases ha : ndLookup n (str "address") with
  | none => rw [ha] at h; dsimp only at h; cases h; rfl
  | some av =>
      rw [ha] at h
      cases av with
      | s w => dsimp only at h; cases h
      | d addr =>
          dsimp only at h
          cases hc : cleanKeysD { address := addr, created := ndLookup n (str "created") }
              address_key with
          | error er => rw [hc] at h; cases h
          | ok stc =>
              rw [hc] at h
              dsimp only at h
              cases h
              cases hcr : stc.created with
              | some cv =>
                  dsimp only
                  rw [ndLookup_ndInsert_ne _ _ hq2, ndLookup_ndInsert_ne _ _ hq1]
              | none =>
                  dsimp only
                  rw [ndLookup_ndInsert_ne _ _ hq1]
      | posv x y => dsimp only at h; cases h
      | refs l => dsimp only at h; cases h

theorem foldRefsD_lookup_ne {q : Str} (hq : q ≠ str "node_refs") :
    ∀ (l : List Str) (n n2 : NodeD),
    foldRefsD n l = Except.ok n2 → ndLookup n2 q = ndLookup n q := by
  intro l
  induction l with
  | nil => intro n n2 h; cases h; rfl
  | cons r rs ih =>
      intro n n2 h
      unfold foldRefsD at h
      cases hr : addRefD n r with
      | error er => rw [hr] at h; cases h
      | ok n1 =>
          rw [hr] at h
          dsimp only at h
          rw [ih n1 n2 h]
          unfold addRefD at hr
          cases hl : ndLookup n (str "node_refs") with
          | none =>
              rw [hl] at hr
              dsimp only at hr
              cases hr
              exact ndLookup_ndInsert_ne _ _ hq
          | some x =>
              rw [hl] at hr
              cases x with
              | s w => dsimp only at hr; cases hr
              | d m => dsimp only at hr; cases hr
              | posv a b => dsimp only at hr; cases hr
              | refs l2 =>
                  dsimp only at hr
                  cases hr
                  exact ndLookup_ndInsert_ne _ _ hq

theorem addNodeRefsD_lookup_ne {n n2 : NodeD} {e : Element}
    (h : addNodeRefsD n e = Except.ok n2) {q : Str} (hq : q ≠ str "node_refs") :
    ndLookup n2 q = ndLookup n q := by
  unfold addNodeRefsD at h
  split at h
  · exact foldRefsD_lookup_ne hq e.nds n n2 h
  · cases h; rfl

/-! Claim C7 over the shared dictionary. -/

theorem foldRefsD_refs :
    ∀ (l : List Str) (n : NodeD) (acc : List Str),
    ndLookup n (str "node_refs") = some (Val.refs acc) →
    ∃ n2, foldRefsD n l = Except.ok n2 ∧
      ndLookup n2 (str "node_refs") = some (Val.refs (acc ++ l)) := by
  intro l
  induction l with
  | nil => intro n acc h; exact ⟨n, rfl, by simpa using h⟩
  | cons r rs ih =>
      intro n acc h
      have hstep : addRefD n r
          = Except.ok (ndInsert n (str "node_refs") (Val.refs (acc.concat r))) := by
        unfold addRefD
        rw [h]
      obtain ⟨n2, hf, hl⟩ := ih (ndInsert n (str "node_refs") (Val.refs (acc.concat r)))
        (acc.concat r) (ndLookup_ndInsert_self _ _ _)
      refine ⟨n2, ?_, ?_⟩
      · unfold foldRefsD
        rw [hstep]
        exact hf
      · rw [hl]
        simp [List.concat_eq_append]

theorem foldRefsD_of_none {n : NodeD} (h : ndLookup n (str "node_refs") = none)
    (r : Str) (rs : List Str) :
    ∃ n2, foldRefsD n (r :: rs) = Except.ok n2 ∧
      ndLookup n2 (str "node_refs") = some (Val.refs (r :: rs)) := by
  have hstep : addRefD n r = Except.ok (ndInsert n (str "node_refs") (Val.refs [r])) := by
    unfold addRefD
    rw [h]
  obtain ⟨n2, hf, hl⟩ := foldRefsD_refs rs (ndInsert n (str "node_refs") (Val.refs [r]))
    [r] (ndLookup_ndInsert_self _ _ _)
  refine ⟨n2, ?_, by simpa using hl⟩
  unfold foldRefsD
  rw [hstep]
  exact hf

/-- Claim C7 counterexample: an attribute named node_refs is a plain
assignment into the shared node dictionary, so a node element that is
not a way produces a record whose node_refs entry is present and holds
a string, never a reference list: presence does not imply a way with
references. -/
theorem C7_counterexample :
    shape_elementD ⟨str "node", [(str "node_refs", str "x")], [], []⟩
      = Except.ok (some [(str "type", Val.s (str "node")),
          (str "node_refs", Val.s (str "x"))]) ∧
    ndHasKey [(str "type", Val.s (str "node")), (str "node_refs", Val.s (str "x"))]
      (str "node_refs") = true ∧
    (str "node" : Str) ≠ str "way" :=
  ⟨by decide, by decide, by decide⟩

/-- Claim C7 amended: for an accepted element none of whose attribute
or nested-tag keys is the literal string node_refs, the record's
node_refs entry is present exactly when the element is a way with at
least one nd reference child, and then it holds the list of reference
values in document order, with no deduplication and no sorting.  (An
attribute or routed tag named node_refs shares the slot: it makes the
entry present as a plain string on any accepted element, and makes a
way with references fail with AttributeError instead of producing a
record.) -/
theorem C7_node_refs {e : Element} {nd : NodeD}
    (h : shape_elementD e = Except.ok (some nd))
    (hna : ∀ p : Str × Str, p ∈ e.attrib → p.1 ≠ str "node_refs")
    (hnt : ∀ p : Str × Str, p ∈ e.tags → p.1 ≠ str "node_refs") :
    ((ndLookup nd (str "node_refs")).isSome = true ↔ (e.tag = str "way" ∧ e.nds ≠ [])) ∧
    (∀ x, ndLookup nd (str "node_refs") = some x → x = Val.refs e.nds) := by
  obtain ⟨htag, st, n1, hs, hc, hr⟩ := shape_elementD_ok_inv h
  have h0 : ndLookup [(str "type", Val.s e.tag)] (str "node_refs") = none := by
    show (if str "type" = str "node_refs" then some (Val.s e.tag)
          else ndLookup [] (str "node_refs")) = none
    rw [if_neg (by decide)]
    rfl
  have hst : ndLookup st.node (str "node_refs") = none := by
    rw [shapeAttrsD_lookup_ne (by decide) (by decide) (by decide) (by decide)
          (fun p hp => (hnt p hp).symm) e.attrib _ st hs
          (fun p hp => (hna p hp).symm)]
    exact h0
  have hn1 : ndLookup n1 (str "node_refs") = none := by
    rw [cleanAddressD_lookup_ne hc (by decide) (by decide)]
    exact hst
  unfold addNodeRefsD at hr
  by_cases hw : e.tag = str "way"
  · rw [if_pos hw] at hr
    cases hnds : e.nds with
    | nil =>
        rw [hnds] at hr
        cases hr
        rw [hn1]
        refine ⟨?_, ?_⟩
        · simp [hnds]
        · intro x hx
          cases hx
    | cons r rs =>
        rw [hnds] at hr
        obtain ⟨n2, hf, hl⟩ := foldRefsD_of_none hn1 r rs
        rw [hf] at hr
        injection hr with hr2
        subst hr2
        rw [hl]
        refine ⟨?_, ?_⟩
        · simp [hw, hnds]
        · intro x hx
          injection hx with hx2
          exact hx2.symm
  · rw [if_neg hw] at hr
    cases hr
    rw [hn1]
    refine ⟨?_, ?_⟩
    · simp [hw]
    · intro x hx
      cases hx

/-- Witness for claim C7 at a concrete way element with two
references. -/
theorem C7_node_refs_witness :
    ((ndLookup [(str "type", Val.s (str "way")), (str "created", Val.d [(str "uid", str "7")]),
        (str "node_refs", Val.refs [str "10", str "20"])] (str "node_refs")).isSome = true ↔
      ((⟨str "way", [(str "uid", str "7")], [], [str "10", str "20"]⟩ : Element).tag = str "way" ∧
       (⟨str "way", [(str "uid", str "7")], [], [str "10", str "20"]⟩ : Element).nds ≠ [])) ∧
    (∀ x, ndLookup [(str "type", Val.s (str "way")), (str "created", Val.d [(str "uid", str "7")]),
        (str "node_refs", Val.refs [str "10", str "20"])] (str "node_refs") = some x →
      x = Val.refs (⟨str "way", [(str "uid", str "7")], [], [str "10", str "20"]⟩ : Element).nds) :=
  @C7_node_refs ⟨str "way", [(str "uid", str "7")], [], [str "10", str "20"]⟩
    [(str "type", Val.s (str "way")), (str "created", Val.d [(str "uid", str "7")]),
     (str "node_refs", Val.refs [str "10", str "20"])]
    (by decide) (by decide) (by decide)

/-! Claim C10 over the shared dictionary. -/

/-- For a non-empty attribute list, the final dictionary of the
attribute loop ends with a full pass of the tag router. -/
theorem shapeAttrsD_last_route {tags : List (Str × Str)} :
    ∀ (l : List (Str × Str)) (st st2 : AttrStD), l ≠ [] →
    shapeAttrsD tags st l = Except.ok st2 →
    ∃ n0, routeTagsD n0 tags = Except.ok st2.node := by
  intro l
  induction l with
  | nil => intro st st2 hne _; exact absurd rfl hne
  | cons p l ih =>
      intro st st2 _ h
      obtain ⟨a, v⟩ := p
      unfold shapeAttrsD at h
      cases hp : processAttrD st a v with
      | error er => rw [hp] at h; cases h
      | ok st1 =>
          rw [hp] at h
          dsimp only at h
          cases hrt : routeTagsD st1.node tags with
          | error er => rw [hrt] at h; cases h
          | ok n2 =>
              rw [hrt] at h
              dsimp only at h
              cases hl : l with
              | nil =>
                  subst hl
                  cases h
                  exact ⟨st1.node, hrt⟩
              | cons q l2 =>
                  subst hl
                  exact ih _ st2 (by simp) h

/-- Routing the exact tag key addr: succeeds and leaves a dictionary
at the address slot whose empty subkey holds the normalized value. -/
theorem routeTagD_addr_exact {n n2 : NodeD} {tv : Str}
    (h : routeTagD n (str "addr:") tv = Except.ok n2) :
    ∃ m, ndLookup n2 (str "address") = some (Val.d m) ∧ alLookup m [] = some (nfkc tv) := by
  unfold routeTagD at h
  rw [if_neg (by decide), if_pos (by decide), if_neg (by decide)] at h
  cases ha : ndLookup n (str "address") with
  | none =>
      rw [ha] at h
      dsimp only at h
      cases h
      exact ⟨_, ndLookup_ndInsert_self _ _ _,
        alLookup_alInsert_self [] ((str "addr:").drop 5) (nfkc tv)⟩
  | some av =>
      rw [ha] at h
      cases av with
      | s w => dsimp only at h; cases h
      | d m =>
          dsimp only at h
          cases h
          exact ⟨_, ndLookup_ndInsert_self _ _ _,
            alLookup_alInsert_self m ((str "addr:").drop 5) (nfkc tv)⟩
      | posv x y => dsimp only at h; cases h
      | refs l => dsimp only at h; cases h

/-- Once the address slot holds a plain string, a successful routing
pass leaves a plain string there: a plain tag named address may
overwrite it, and an addr: tag would fail instead. -/
theorem routeTagD_addr_string {n n2 : NodeD} {tk tv w : Str}
    (h : routeTagD n tk tv = Except.ok n2)
    (ha : ndLookup n (str "address") = some (Val.s w)) :
    ∃ w2, ndLookup n2 (str "address") = some (Val.s w2) := by
  unfold routeTagD at h
  split at h
  · cases h; exact ⟨w, ha⟩
  · split at h
    · split at h
      · cases h; exact ⟨w, ha⟩
      · rw [ha] at h
        dsimp only at h
        cases h
    · split at h
      · cases h
        refine ⟨w, ?_⟩
        rw [ndLookup_ndInsert_ne _ _ (by decide)]
        exact ha
      · by_cases hk : tk = str "address"
        · cases h
          subst hk
          exact ⟨nfkc tv, ndLookup_ndInsert_self _ _ _⟩
        · cases h
          refine ⟨w, ?_⟩
          rw [ndLookup_ndInsert_ne _ _ (Ne.symm hk)]
          exact ha

theorem routeTagsD_addr_string :
    ∀ (ts : List (Str × Str)) (n n2 : NodeD) (w : Str),
    routeTagsD n ts = Except.ok n2 →
    ndLookup n (str "address") = some (Val.s w) →
    ∃ w2, ndLookup n2 (str "address") = some (Val.s w2) := by
  intro ts
  induction ts with
  | nil => intro n n2 w h ha; cases h; exact ⟨w, ha⟩
  | cons p ts ih =>
      intro n n2 w h ha
      obtain ⟨k, v⟩ := p
      unfold routeTagsD at h
      cases hr : routeTagD n k v with
      | error er => rw [hr] at h; cases h
      | ok n1 =>
          rw [hr] at h
          dsimp only at h
          obtain ⟨w1, hw1⟩ := routeTagD_addr_string hr ha
          exact ih n1 n2 w1 h hw1

/-- A routing pass without the exact addr: key keeps the empty-subkey
entry of an address dictionary, unless a plain tag named address
overwrites the whole slot with a string. -/
theorem routeTagsD_addr_keep {w : Str} :
    ∀ (ts : List (Str × Str)) (n n2 : NodeD),
    routeTagsD n ts = Except.ok n2 →
    (∀ p : Str × Str, p ∈ ts → p.1 ≠ str "addr:") →
    (∃ m, ndLookup n (str "address") = some (Val.d m) ∧ alLookup m [] = some w) →
    (∃ m2, ndLookup n2 (str "address") = some (Val.d m2) ∧ alLookup m2 [] = some w) ∨
    (∃ w2, ndLookup n2 (str "address") = some (Val.s w2)) := by
  intro ts
  induction ts with
  | nil => intro n n2 h _ hd; cases h; exact Or.inl hd
  | cons p ts ih =>
      intro n n2 h hp hd
      obtain ⟨k, v⟩ := p
      obtain ⟨m, hm, hw⟩ := hd
      unfold routeTagsD at h
      cases hr : routeTagD n k v with
      | error er => rw [hr] at h; cases h
      | ok n1 =>
          rw [hr] at h
          dsimp only at h
          have hknot : k ≠ str "addr:" := hp (k, v) (List.mem_cons_self _ _)
          have hrest : ∀ p2 : Str × Str, p2 ∈ ts → p2.1 ≠ str "addr:" :=
            fun p2 hp2 => hp p2 (List.mem_cons_of_mem _ hp2)
          unfold routeTagD at hr
          by_cases h1 : problemchars k = true
          · rw [if_pos h1] at hr
            injection hr with hr1
            subst hr1
            exact ih _ n2 h hrest ⟨m, hm, hw⟩
          · rw [if_neg h1] at hr
            by_cases h2 : (str "addr:").isPrefixOf k = true
            · rw [if_pos h2] at hr
              by_cases h3 : lower_colon (k.drop 5) = true
              · rw [if_pos h3] at hr
                injection hr with hr1
                subst hr1
                exact ih _ n2 h hrest ⟨m, hm, hw⟩
              · rw [if_neg h3, hm] at hr
                dsimp only at hr
                injection hr with hr1
                subst hr1
                have hd5 : k.drop 5 ≠ [] := drop5_ne_nil_of_proper_prefix h2 hknot
                refine ih _ n2 h hrest ⟨alInsert m (k.drop 5) (nfkc v),
                  ndLookup_ndInsert_self _ _ _, ?_⟩
                rw [alLookup_alInsert_ne _ _ (Ne.symm hd5)]
                exact hw
            · rw [if_neg h2] at hr
              by_cases h4 : k = str "type"
              · rw [if_pos h4] at hr
                injection hr with hr1
                subst hr1
                refine ih _ n2 h hrest ⟨m, ?_, hw⟩
                rw [ndLookup_ndInsert_ne _ _ (by decide)]
                exact hm
              · rw [if_neg h4] at hr
                injection hr with hr1
                subst hr1
                by_cases h5 : k = str "address"
                · subst h5
                  exact Or.inr (routeTagsD_addr_string ts _ n2 (nfkc v) h
                    (ndLookup_ndInsert_self _ _ _))
                · refine ih _ n2 h hrest ⟨m, ?_, hw⟩
                  rw [ndLookup_ndInsert_ne _ _ (Ne.symm h5)]
                  exact hm

/-- A successful routing pass containing the exact tag key addr:
either ends with an address dictionary whose empty subkey holds the
normalized value of such a tag, or with the whole slot overwritten by
a plain string. -/
theorem routeTagsD_addr_empty :
    ∀ (ts : List (Str × Str)) (n n2 : NodeD) (v : Str),
    routeTagsD n ts = Except.ok n2 →
    (str "addr:", v) ∈ ts →
    (∃ v2 m, (str "addr:", v2) ∈ ts ∧
        ndLookup n2 (str "address") = some (Val.d m) ∧ alLookup m [] = some (nfkc v2)) ∨
    (∃ w, ndLookup n2 (str "address") = some (Val.s w)) := by
  intro ts
  induction ts with
  | nil => intro n n2 v h hv; cases hv
  | cons p ts ih =>
      intro n n2 v h hv
      obtain ⟨k, v0⟩ := p
      unfold routeTagsD at h
      cases hr : routeTagD n k v0 with
      | error er => rw [hr] at h; cases h
      | ok n1 =>
          rw [hr] at h
          dsimp only at h
          by_cases hrest : ∃ w2, (str "addr:", w2) ∈ ts
          · obtain ⟨w2, hw2⟩ := hrest
            rcases ih n1 n2 w2 h hw2 with hL | hR
            · obtain ⟨v2, m, hv2, hlm, hml⟩ := hL
              exact Or.inl ⟨v2, m, List.mem_cons_of_mem _ hv2, hlm, hml⟩
            · exact Or.inr hR
          · have hhead : (k, v0) = (str "addr:", v) := by
              cases List.mem_cons.mp hv with
              | inl hh => exact hh.symm
              | inr hh => exact absurd ⟨v, hh⟩ hrest
            injection hhead with hk hv0
            subst hk
            subst hv0
            obtain ⟨m, hlm, hml⟩ := routeTagD_addr_exact hr
            have hnot : ∀ p2 : Str × Str, p2 ∈ ts → p2.1 ≠ str "addr:" := by
              intro p2 hp2 hcon
              refine hrest ⟨p2.2, ?_⟩
              rw [← hcon]
              simpa using hp2
            rcases routeTagsD_addr_keep ts n1 n2 h hnot ⟨m, hlm, hml⟩ with hL | hR
            · obtain ⟨m2, hm2, hw⟩ := hL
              exact Or.inl ⟨v0, m2, List.mem_cons_self _ _, hm2, hw⟩
            · exact Or.inr hR

/-- The cleaning pass keeps the empty-subkey entry of the address
dictionary: the empty string is not a recognized address key. -/
theorem cleanAddressD_addr_entry {n n1 : NodeD} {m : Dict} {w : Str}
    (h : cleanAddressD n = Except.ok n1)
    (ha : ndLookup n (str "address") = some (Val.d m))
    (hw : alLookup m [] = some w) :
    ∃ m2, ndLookup n1 (str "address") = some (Val.d m2) ∧ alLookup m2 [] = some w := by
  unfold cleanAddressD at h
  rw [ha] at h
  dsimp only at h
  cases hc : cleanKeysD { address := m, created := ndLookup n (str "created") } address_key with
  | error er => rw [hc] at h; cases h
  | ok stc =>
      rw [hc] at h
      dsimp only at h
      cases h
      have hm2 : alLookup stc.address [] = some w := by
        rw [cleanKeysD_lookup_ne address_key _ _ hc
              (by intro k hk; fin_cases hk <;> decide) (by decide) (by decide)]
        exact hw
      cases hcr : stc.created with
      | some cv =>
          dsimp only
          refine ⟨stc.address, ?_, hm2⟩
          rw [ndLookup_ndInsert_ne _ _ (by decide)]
          exact ndLookup_ndInsert_self _ _ _
      | none =>
          dsimp only
          exact ⟨stc.address, ndLookup_ndInsert_self _ _ _, hm2⟩

/-- Claim C10: on an accepted element with at least one top-level
attribute, a nested tag whose key is exactly the five-character string
addr: is not discarded: the produced record's address dictionary holds
the normalized value of such a tag under the empty-string subkey.
(When a plain attribute or tag named address shares the slot, shaping
raises TypeError or AttributeError instead of producing a record, so
the success hypothesis rules those elements out.) -/
theorem C10_addr_exact_prefix_empty_subkey {e : Element} {nd : NodeD} {v : Str}
    (h : shape_elementD e = Except.ok (some nd)) (ha : e.attrib ≠ [])
    (ht : (str "addr:", v) ∈ e.tags) :
    ∃ v2 m, (str "addr:", v2) ∈ e.tags ∧
      ndLookup nd (str "address") = some (Val.d m) ∧ alLookup m [] = some (nfkc v2) := by
  obtain ⟨htag, st, n1, hs, hc, hr⟩ := shape_elementD_ok_inv h
  obtain ⟨n0, hroute⟩ := shapeAttrsD_last_route e.attrib _ _ ha hs
  rcases routeTagsD_addr_empty e.tags n0 st.node v hroute ht with hL | hR
  · obtain ⟨v2, m, hv2, hlm, hml⟩ := hL
    obtain ⟨m2, hm2, hw2⟩ := cleanAddressD_addr_entry hc hlm hml
    refine ⟨v2, m2, hv2, ?_, hw2⟩
    rw [addNodeRefsD_lookup_ne hr (by decide)]
    exact hm2
  · obtain ⟨w, hw⟩ := hR
    exfalso
    unfold cleanAddressD at hc
    rw [hw] at hc
    dsimp only at hc
    cases hc

/-- Witness for claim C10 at a concrete node element carrying one
attribute and the tag with key addr: and value v0. -/
theorem C10_addr_exact_prefix_empty_subkey_witness :
    ∃ v2 m, (str "addr:", v2) ∈ ([(str "addr:", str "v0")] : List (Str × Str)) ∧
      ndLookup [(str "type", Val.s (str "node")), (str "id", Val.s (str "1")),
          (str "address", Val.d [([], str "v0")])] (str "address") = some (Val.d m) ∧
      alLookup m [] = some (nfkc v2) :=
  @C10_addr_exact_prefix_empty_subkey
    ⟨str "node", [(str "id", str "1")], [(str "addr:", str "v0")], []⟩
    [(str "type", Val.s (str "node")), (str "id", Val.s (str "1")),
     (str "address", Val.d [([], str "v0")])]
    (str "v0")
    (by decide) (by decide) (by decide)

/-! Claim C2 over the shared dictionary. -/

/-- The created slot of the shared dictionary holds a dictionary when
present. -/
def createdOKD (n : NodeD) : Prop :=
  ∀ x, ndLookup n (str "created") = some x → ∃ m, x = Val.d m

/-- The address slot of the shared dictionary holds a dictionary when
present. -/
def addressOKD (n : NodeD) : Prop :=
  ∀ x, ndLookup n (str "address") = some x → ∃ m, x = Val.d m

theorem createdOKD_insert_other {n : NodeD} {k : Str} {v : Val}
    (h : createdOKD n) (hk : k ≠ str "created") : createdOKD (ndInsert n k v) := by
  intro x hx
  rw [ndLookup_ndInsert_ne _ _ (Ne.symm hk)] at hx
  exact h x hx

theorem addressOKD_insert_other {n : NodeD} {k : Str} {v : Val}
    (h : addressOKD n) (hk : k ≠ str "address") : addressOKD (ndInsert n k v) := by
  intro x hx
  rw [ndLookup_ndInsert_ne _ _ (Ne.symm hk)] at hx
  exact h x hx

theorem createdOKD_insert_d {n : NodeD} (m : Dict) :
    createdOKD (ndInsert n (str "created") (Val.d m)) := by
  intro x hx
  rw [ndLookup_ndInsert_self] at hx
  injection hx with hx2
  exact ⟨m, hx2.symm⟩

theorem posvOf_congr {n1 n2 : NodeD}
    (h : ndLookup n2 (str "pos") = ndLookup n1 (str "pos")) :
    posvOf n2 = posvOf n1 := by
  unfold posvOf
  rw [h]

theorem posvOf_insert_other {n : NodeD} {k : Str} {v : Val} (hk : k ≠ str "pos") :
    posvOf (ndInsert n k v) = posvOf n := by
  unfold posvOf
  rw [ndLookup_ndInsert_ne _ _ (Ne.symm hk)]

theorem posvOf_insert_posv (n : NodeD) (a b : ℚ) :
    posvOf (ndInsert n (str "pos") (Val.posv a b)) = some (a, b) := by
  unfold posvOf
  rw [ndLookup_ndInsert_self]

theorem posv_exists_iff {n : NodeD} :
    (∃ a b, ndLookup n (str "pos") = some (Val.posv a b)) ↔ (posvOf n).isSome = true := by
  unfold posvOf
  cases h : ndLookup n (str "pos") with
  | none => simp
  | some x =>
      cases x with
      | s w => simp
      | d m => simp
      | posv c e =>
          simp only [Option.isSome_some, iff_true]
          exact ⟨c, e, rfl⟩
      | refs l => simp

/-- A tag whose key avoids the reserved names neither fails nor
touches the created or pos slots, and keeps the address slot a
dictionary. -/
theorem routeTagD_ok {n : NodeD} {tk : Str} (tv : Str)
    (hk1 : tk ≠ str "created") (hk2 : tk ≠ str "pos") (hk3 : tk ≠ str "address")
    (haok : addressOKD n) :
    ∃ n2, routeTagD n tk tv = Except.ok n2 ∧ addressOKD n2 ∧
      ndLookup n2 (str "created") = ndLookup n (str "created") ∧
      ndLookup n2 (str "pos") = ndLookup n (str "pos") := by
  unfold routeTagD
  by_cases h1 : problemchars tk = true
  · rw [if_pos h1]; exact ⟨n, rfl, haok, rfl, rfl⟩
  · rw [if_neg h1]
    by_cases h2 : (str "addr:").isPrefixOf tk = true
    · rw [if_pos h2]
      by_cases h3 : lower_colon (tk.drop 5) = true
      · rw [if_pos h3]; exact ⟨n, rfl, haok, rfl, rfl⟩
      · rw [if_neg h3]
        cases haL : ndLookup n (str "address") with
        | none =>
            dsimp only
            refine ⟨_, rfl, ?_, ?_, ?_⟩
            · intro x hx
              rw [ndLookup_ndInsert_self] at hx
              injection hx with hx2
              exact ⟨_, hx2.symm⟩
            · exact ndLookup_ndInsert_ne _ _ (by decide)
            · exact ndLookup_ndInsert_ne _ _ (by decide)
        | some av =>
            obtain ⟨m, hm⟩ := haok av haL
            subst hm
            dsimp only
            refine ⟨_, rfl, ?_, ?_, ?_⟩
            · intro x hx
              rw [ndLookup_ndInsert_self] at hx
              injection hx with hx2
              exact ⟨_, hx2.symm⟩
            · exact ndLookup_ndInsert_ne _ _ (by decide)
            · exact ndLookup_ndInsert_ne _ _ (by decide)
    · rw [if_neg h2]
      by_cases h4 : tk = str "type"
      · rw [if_pos h4]
        refine ⟨_, rfl, ?_, ?_, ?_⟩
        · exact addressOKD_insert_other haok (by decide)
        · exact ndLookup_ndInsert_ne _ _ (by decide)
        · exact ndLookup_ndInsert_ne _ _ (by decide)
      · rw [if_neg h4]
        refine ⟨_, rfl, ?_, ?_, ?_⟩
        · exact addressOKD_insert_other haok hk3
        · exact ndLookup_ndInsert_ne _ _ (Ne.symm hk1)
        · exact ndLookup_ndInsert_ne _ _ (Ne.symm hk2)

/-- A full routing pass whose tag keys avoid the reserved names
succeeds, keeps the address slot a dictionary, and leaves the created
and pos slots untouched. -/
theorem routeTagsD_ok :
    ∀ (ts : List (Str × Str)) (n : NodeD),
    (∀ p : Str × Str, p ∈ ts →
      p.1 ≠ str "created" ∧ p.1 ≠ str "pos" ∧ p.1 ≠ str "address") →
    addressOKD n →
    ∃ n2, routeTagsD n ts = Except.ok n2 ∧ addressOKD n2 ∧
      ndLookup n2 (str "created") = ndLookup n (str "created") ∧
      ndLookup n2 (str "pos") = ndLookup n (str "pos") := by
  intro ts
  induction ts with
  | nil => intro n _ haok; exact ⟨n, rfl, haok, rfl, rfl⟩
  | cons p ts ih =>
      intro n hp haok
      obtain ⟨k, v⟩ := p
      obtain ⟨hk1, hk2, hk3⟩ := hp (k, v) (List.mem_cons_self _ _)
      obtain ⟨n1, hr, haok1, hc1, hp1⟩ := routeTagD_ok v hk1 hk2 hk3 haok
      obtain ⟨n2, hr2, haok2, hc2, hp2⟩ :=
        ih n1 (fun q hq => hp q (List.mem_cons_of_mem _ hq)) haok1
      refine ⟨n2, ?_, haok2, hc2.trans hc1, hp2.trans hp1⟩
      unfold routeTagsD
      rw [hr]
      exact hr2

theorem routeTagsD_ok_inv {tags : List (Str × Str)}
    (htags : ∀ p : Str × Str, p ∈ tags →
      p.1 ≠ str "created" ∧ p.1 ≠ str "pos" ∧ p.1 ≠ str "address")
    {n : NodeD} (hcok : createdOKD n) (haok : addressOKD n) :
    ∃ n2, routeTagsD n tags = Except.ok n2 ∧ createdOKD n2 ∧ addressOKD n2 ∧
      posvOf n2 = posvOf n := by
  obtain ⟨n2, hrt, haok2, hcEq, hpEq⟩ := routeTagsD_ok tags n htags haok
  refine ⟨n2, hrt, ?_, haok2, ?_⟩
  · intro x hx
    rw [hcEq] at hx
    exact hcok x hx
  · unfold posvOf
    rw [hpEq]

/-- Projection of the shared-dictionary attribute loop onto the pos
slot: on elements whose attribute and tag keys avoid the reserved
names, the loop can only fail with the coordinate ValueError, and the
pos slot evolves exactly as the detached lat / lon bookkeeping. -/
theorem shapeAttrsD_posOutcome {tags : List (Str × Str)}
    (htags : ∀ p : Str × Str, p ∈ tags →
      p.1 ≠ str "created" ∧ p.1 ≠ str "pos" ∧ p.1 ≠ str "address") :
    ∀ (l : List (Str × Str)) (st : AttrStD),
    (∀ p : Str × Str, p ∈ l →
      p.1 ≠ str "created" ∧ p.1 ≠ str "pos" ∧ p.1 ≠ str "address") →
    createdOKD st.node → addressOKD st.node →
    (∀ st2, shapeAttrsD tags st l = Except.ok st2 →
        posOutcome st.lat st.lon (posvOf st.node) l = Except.ok (posvOf st2.node)) ∧
    (∀ er, shapeAttrsD tags st l = Except.error er →
        posOutcome st.lat st.lon (posvOf st.node) l = Except.error er) := by
  intro l
  induction l with
  | nil =>
      intro st _ _ _
      constructor
      · intro st2 h
        cases h
        rfl
      · intro er h
        cases h
  | cons p l ih =>
      intro st hl hcok haok
      obtain ⟨a, v⟩ := p
      obtain ⟨hA1, hA2, hA3⟩ := hl (a, v) (List.mem_cons_self _ _)
      have hlrest : ∀ p2 : Str × Str, p2 ∈ l →
          p2.1 ≠ str "created" ∧ p2.1 ≠ str "pos" ∧ p2.1 ≠ str "address" :=
        fun p2 hp2 => hl p2 (List.mem_cons_of_mem _ hp2)
      by_cases hcr : a ∈ CREATED
      · -- a CREATED attribute updates only the created slot
        have hcoord := mem_CREATED_not_coord hcr
        have hstep : ∃ m2, processAttrD st a v = Except.ok
            { st with node := ndInsert st.node (str "created") (Val.d m2) } := by
          cases hcslot : ndLookup st.node (str "created") with
          | none =>
              refine ⟨alInsert [] a (nfkc v), ?_⟩
              unfold processAttrD
              rw [if_pos hcr, hcslot]
          | some cv =>
              obtain ⟨m, hm⟩ := hcok cv hcslot
              subst hm
              refine ⟨alInsert m a (nfkc v), ?_⟩
              unfold processAttrD
              rw [if_pos hcr, hcslot]
        obtain ⟨m2, hstep⟩ := hstep
        obtain ⟨n2, hrt, hcok2, haok2, hpv2⟩ := @routeTagsD_ok_inv tags htags
          (ndInsert st.node (str "created") (Val.d m2))
          (createdOKD_insert_d m2)
          (addressOKD_insert_other haok (by decide))
        have hpv : posvOf n2 = posvOf st.node := by
          rw [hpv2, posvOf_insert_other (by decide)]
        constructor
        · intro st2 h
          unfold shapeAttrsD at h
          rw [hstep] at h
          dsimp only at h
          rw [hrt] at h
          dsimp only at h
          unfold posOutcome
          rw [if_neg hcoord]
          have hrec := (ih _ hlrest hcok2 haok2).1 st2 h
          rw [hpv] at hrec
          exact hrec
        · intro er h
          unfold shapeAttrsD at h
          rw [hstep] at h
          dsimp only at h
          rw [hrt] at h
          dsimp only at h
          unfold posOutcome
          rw [if_neg hcoord]
          have hrec := (ih _ hlrest hcok2 haok2).2 er h
          rw [hpv] at hrec
          exact hrec
      · by_cases hco : a = str "lat" ∨ a = str "lon"
        · -- the lat / lon branch
          have hstep : processAttrD st a v = checkLatLonD
              (if a = str "lat" then { st with lat := some v }
               else if a = str "lon" then { st with lon := some v } else st) := by
            unfold processAttrD
            rw [if_neg hcr, if_pos hco]
          have hU1 : (if a = str "lat" then { st with lat := some v }
              else if a = str "lon" then { st with lon := some v } else st).lat
                = (coordUpdate a v st.lat st.lon).1 := by
            unfold coordUpdate
            split_ifs <;> rfl
          have hU2 : (if a = str "lat" then { st with lat := some v }
              else if a = str "lon" then { st with lon := some v } else st).lon
                = (coordUpdate a v st.lat st.lon).2 := by
            unfold coordUpdate
            split_ifs <;> rfl
          have hU3 : (if a = str "lat" then { st with lat := some v }
              else if a = str "lon" then { st with lon := some v } else st).node
                = st.node := by
            split_ifs <;> rfl
          constructor
          · intro st2 h
            unfold shapeAttrsD at h
            rw [hstep] at h
            unfold checkLatLonD at h
            rw [hU1, hU2, hU3] at h
            unfold posOutcome
            rw [if_pos hco]
            by_cases htr : truthy (coordUpdate a v st.lat st.lon).1 = true ∧
                truthy (coordUpdate a v st.lat st.lon).2 = true
            · rw [if_pos htr] at h ⊢
              cases hpa : parseFloat ((coordUpdate a v st.lat st.lon).1.getD []) with
              | none =>
                  rw [hpa] at h
                  dsimp only at h
                  cases h
              | some qa =>
                  cases hpb : parseFloat ((coordUpdate a v st.lat st.lon).2.getD []) with
                  | none =>
                      rw [hpa, hpb] at h
                      dsimp only at h
                      cases h
                  | some qb =>
                      rw [hpa, hpb] at h
                      dsimp only at h
                      obtain ⟨n2, hrt, hcok2, haok2, hpv2⟩ := @routeTagsD_ok_inv tags htags
                        (ndInsert st.node (str "pos") (Val.posv qa qb))
                        (createdOKD_insert_other hcok (by decide))
                        (addressOKD_insert_other haok (by decide))
                      rw [hrt] at h
                      dsimp only at h
                      dsimp only
                      have hrec := (ih _ hlrest hcok2 haok2).1 st2 h
                      rw [hpv2, posvOf_insert_posv] at hrec
                      exact hrec
            · rw [if_neg htr] at h ⊢
              dsimp only at h
              rw [hU3, hU1, hU2] at h
              obtain ⟨n2, hrt, hcok2, haok2, hpv2⟩ := @routeTagsD_ok_inv tags htags
                st.node hcok haok
              rw [hrt] at h
              dsimp only at h
              have hrec := (ih _ hlrest hcok2 haok2).1 st2 h
              rw [hpv2] at hrec
              exact hrec
          · intro er h
            unfold shapeAttrsD at h
            rw [hstep] at h
            unfold checkLatLonD at h
            rw [hU1, hU2, hU3] at h
            unfold posOutcome
            rw [if_pos hco]
            by_cases htr : truthy (coordUpdate a v st.lat st.lon).1 = true ∧
                truthy (coordUpdate a v st.lat st.lon).2 = true
            · rw [if_pos htr] at h ⊢
              cases hpa : parseFloat ((coordUpdate a v st.lat st.lon).1.getD []) with
              | none =>
                  rw [hpa] at h
                  dsimp only at h
                  cases h
                  rfl
              | some qa =>
                  cases hpb : parseFloat ((coordUpdate a v st.lat st.lon).2.getD []) with
                  | none =>
                      rw [hpa, hpb] at h
                      dsimp only at h
                      cases h
                      rfl
                  | some qb =>
                      rw [hpa, hpb] at h
                      dsimp only at h
                      obtain ⟨n2, hrt, hcok2, haok2, hpv2⟩ := @routeTagsD_ok_inv tags htags
                        (ndInsert st.node (str "pos") (Val.posv qa qb))
                        (createdOKD_insert_other hcok (by decide))
                        (addressOKD_insert_other haok (by decide))
                      rw [hrt] at h
                      dsimp only at h
                      dsimp only
                      have hrec := (ih _ hlrest hcok2 haok2).2 er h
                      rw [hpv2, posvOf_insert_posv] at hrec
                      exact hrec
            · rw [if_neg htr] at h ⊢
              dsimp only at h
              rw [hU3, hU1, hU2] at h
              obtain ⟨n2, hrt, hcok2, haok2, hpv2⟩ := @routeTagsD_ok_inv tags htags
                st.node hcok haok
              rw [hrt] at h
              dsimp only at h
              have hrec := (ih _ hlrest hcok2 haok2).2 er h
              rw [hpv2] at hrec
              exact hrec
        · -- a plain attribute
          have hstep : processAttrD st a v = Except.ok
              { st with node := ndInsert st.node a (Val.s (nfkc v)) } := by
            unfold processAttrD
            rw [if_neg hcr, if_neg hco]
          obtain ⟨n2, hrt, hcok2, haok2, hpv2⟩ := @routeTagsD_ok_inv tags htags
            (ndInsert st.node a (Val.s (nfkc v)))
            (createdOKD_insert_other hcok hA1)
            (addressOKD_insert_other haok hA3)
          have hpv : posvOf n2 = posvOf st.node := by
            rw [hpv2, posvOf_insert_other hA2]
          constructor
          · intro st2 h
            unfold shapeAttrsD at h
            rw [hstep] at h
            dsimp only at h
            rw [hrt] at h
            dsimp only at h
            unfold posOutcome
            rw [if_neg hco]
            have hrec := (ih _ hlrest hcok2 haok2).1 st2 h
            rw [hpv] at hrec
            exact hrec
          · intro er h
            unfold shapeAttrsD at h
            rw [hstep] at h
            dsimp only at h
            rw [hrt] at h
            dsimp only at h
            unfold posOutcome
            rw [if_neg hco]
            have hrec := (ih _ hlrest hcok2 haok2).2 er h
            rw [hpv] at hrec
            exact hrec

/-- Claim C2 counterexample, in two parts.  First, a lat attribute
that is present and not parseable as a float, with no lon: shaping
succeeds with a record and raises no NumericParseError, because the
float conversion only runs once both coordinates are present and
non-empty.  Second, an attribute named pos is a plain assignment into
the shared slot: the record has a pos entry (holding a string) with no
lat or lon attribute at all. -/
theorem C2_counterexample :
    (shape_elementD ⟨str "node", [(str "lat", str "abc")], [], []⟩
       = Except.ok (some [(str "type", Val.s (str "node"))]) ∧
     (Except.ok (some [(str "type", Val.s (str "node"))])
         : Except ShapeErr (Option NodeD))
       ≠ Except.error ShapeErr.valueError) ∧
    (shape_elementD ⟨str "node", [(str "pos", str "x")], [], []⟩
       = Except.ok (some [(str "type", Val.s (str "node")), (str "pos", Val.s (str "x"))]) ∧
     ndHasKey [(str "type", Val.s (str "node")), (str "pos", Val.s (str "x"))]
       (str "pos") = true) :=
  ⟨⟨by decide, by decide⟩, by decide, by decide⟩

/-- Claim C2 amended: for an accepted element with distinct attribute
keys, none of whose attribute or nested-tag keys is one of the
reserved names created, pos or address, the pos pair is present in a
produced record exactly when the lat and the lon attributes both
existed with non-empty values (and both parsed); and a
NumericParseError (ValueError) is raised exactly in the presence of
both non-empty coordinates when either fails to parse.  When one
coordinate is absent or empty, an unparseable value in the other is
silently ignored: no error is raised and pos is omitted.  (An
attribute or tag named pos makes the entry present as a plain string
without any coordinates; one named created or address can turn the
failure into a TypeError instead.) -/
theorem C2_pos_iff_and_error {e : Element}
    (htag : e.tag = str "node" ∨ e.tag = str "way")
    (hnd : (e.attrib.map Prod.fst).Nodup)
    (hna : ∀ p : Str × Str, p ∈ e.attrib →
      p.1 ≠ str "created" ∧ p.1 ≠ str "pos" ∧ p.1 ≠ str "address")
    (hnt : ∀ p : Str × Str, p ∈ e.tags →
      p.1 ≠ str "created" ∧ p.1 ≠ str "pos" ∧ p.1 ≠ str "address") :
    (∀ nd, shape_elementD e = Except.ok (some nd) →
      ((∃ a b, ndLookup nd (str "pos") = some (Val.posv a b)) ↔
        ((∃ la, (str "lat", la) ∈ e.attrib ∧ la ≠ []) ∧
         (∃ lo, (str "lon", lo) ∈ e.attrib ∧ lo ≠ [])))) ∧
    (∀ la lo, (str "lat", la) ∈ e.attrib → (str "lon", lo) ∈ e.attrib →
      la ≠ [] → lo ≠ [] → (parseFloat la = none ∨ parseFloat lo = none) →
      shape_elementD e = Except.error ShapeErr.valueError) := by
  have hnone : ∀ q : Str, q ≠ str "type" →
      ndLookup [(str "type", Val.s e.tag)] q = none := by
    intro q hq
    show (if str "type" = q then some (Val.s e.tag) else ndLookup [] q) = none
    rw [if_neg (fun hcon => hq hcon.symm)]
    rfl
  have hcok0 : createdOKD [(str "type", Val.s e.tag)] := by
    intro x hx
    rw [hnone (str "created") (by decide)] at hx
    cases hx
  have haok0 : addressOKD [(str "type", Val.s e.tag)] := by
    intro x hx
    rw [hnone (str "address") (by decide)] at hx
    cases hx
  have hpv0 : posvOf [(str "type", Val.s e.tag)] = none := by
    unfold posvOf
    rw [hnone (str "pos") (by decide)]
  have hchar := posOutcome_char e.attrib none none none hnd (fun _ => rfl) (fun _ => rfl)
    (fun hcon => by simpa [truthy] using hcon.1)
  constructor
  · intro nd h
    obtain ⟨_, st, n1, hs, hc, hr⟩ := shape_elementD_ok_inv h
    have hpos1 : posOutcome none none none e.attrib = Except.ok (posvOf st.node) := by
      have hp := (shapeAttrsD_posOutcome hnt e.attrib
          { node := [(str "type", Val.s e.tag)], lat := none, lon := none }
          hna hcok0 haok0).1 st hs
      rw [hpv0] at hp
      exact hp
    have hpose : posvOf nd = posvOf st.node :=
      (posvOf_congr (addNodeRefsD_lookup_ne hr (by decide))).trans
        (posvOf_congr (cleanAddressD_lookup_ne hc (by decide) (by decide)))
    by_cases hcond : truthy (stepLat none e.attrib) = true ∧
        truthy (stepLon none e.attrib) = true
    · rw [if_pos hcond] at hchar
      cases hpa : parseFloat ((stepLat none e.attrib).getD []) with
      | none =>
          rw [hpa] at hchar
          rw [hchar] at hpos1
          cases hpb : parseFloat ((stepLon none e.attrib).getD []) with
          | none => rw [hpb] at hpos1; cases hpos1
          | some b => rw [hpb] at hpos1; cases hpos1
      | some a =>
          cases hpb : parseFloat ((stepLon none e.attrib).getD []) with
          | none =>
              rw [hpa, hpb] at hchar
              rw [hchar] at hpos1
              cases hpos1
          | some b =>
              rw [hpa, hpb] at hchar
              rw [hchar] at hpos1
              have hsp : posvOf st.node = some (a, b) := by
                injection hpos1 with h2
                exact h2.symm
              rw [posv_exists_iff, hpose, hsp]
              simp only [Option.isSome_some, true_iff]
              constructor
              · cases hsl : stepLat none e.attrib with
                | none => rw [hsl] at hcond; simpa [truthy] using hcond.1
                | some la =>
                    rcases stepLat_cases hsl with hin | habs
                    · refine ⟨la, hin, ?_⟩
                      rw [hsl] at hcond
                      exact ne_of_truthy hcond.1
                    · cases habs
              · cases hso : stepLon none e.attrib with
                | none => rw [hso] at hcond; simpa [truthy] using hcond.2
                | some lo =>
                    rcases stepLon_cases hso with hin | habs
                    · refine ⟨lo, hin, ?_⟩
                      rw [hso] at hcond
                      exact ne_of_truthy hcond.2
                    · cases habs
    · rw [if_neg hcond] at hchar
      rw [hchar] at hpos1
      have hsp : posvOf st.node = none := by
        injection hpos1 with h2
        exact h2.symm
      rw [posv_exists_iff, hpose, hsp]
      constructor
      · intro hcon
        simp at hcon
      · rintro ⟨⟨la, hla, hlane⟩, ⟨lo, hlo, hlone⟩⟩
        exfalso
        apply hcond
        constructor
        · rw [stepLat_of_mem none hnd hla]
          exact truthy_some hlane
        · rw [stepLon_of_mem none hnd hlo]
          exact truthy_some hlone
  · intro la lo hla hlo hlane hlone hpf
    have hLa : stepLat none e.attrib = some la := stepLat_of_mem none hnd hla
    have hLo : stepLon none e.attrib = some lo := stepLon_of_mem none hnd hlo
    have hcond : truthy (stepLat none e.attrib) = true ∧
        truthy (stepLon none e.attrib) = true := by
      rw [hLa, hLo]
      exact ⟨truthy_some hlane, truthy_some hlone⟩
    rw [if_pos hcond, hLa, hLo] at hchar
    simp only [Option.getD_some] at hchar
    have herr : posOutcome none none none e.attrib = Except.error ShapeErr.valueError := by
      rcases hpf with hz | hz
      · cases hq : parseFloat lo with
        | none => rw [hz, hq] at hchar; exact hchar
        | some b => rw [hz, hq] at hchar; exact hchar
      · cases hq : parseFloat la with
        | none => rw [hq, hz] at hchar; exact hchar
        | some a2 => rw [hq, hz] at hchar; exact hchar
    cases hsa : shapeAttrsD e.tags
        { node := [(str "type", Val.s e.tag)], lat := none, lon := none } e.attrib with
    | ok st =>
        have hok := (shapeAttrsD_posOutcome hnt e.attrib
            { node := [(str "type", Val.s e.tag)], lat := none, lon := none }
            hna hcok0 haok0).1 st hsa
        rw [hpv0] at hok
        rw [hok] at herr
        cases herr
    | error er =>
        have herr2 := (shapeAttrsD_posOutcome hnt e.attrib
            { node := [(str "type", Val.s e.tag)], lat := none, lon := none }
            hna hcok0 haok0).2 er hsa
        rw [hpv0] at herr2
        rw [herr2] at herr
        injection herr with hereq
        subst hereq
        exact shape_elementD_err_of_attrs htag hsa

/-- Witness for claim C2: a node whose lat is unparseable while lon is
a present non-empty value raises the NumericParseError. -/
theorem C2_pos_iff_and_error_witness :
    shape_elementD ⟨str "node", [(str "lat", str "abc"), (str "lon", str "135.7")], [], []⟩
      = Except.error ShapeErr.valueError :=
  (@C2_pos_iff_and_error
      ⟨str "node", [(str "lat", str "abc"), (str "lon", str "135.7")], [], []⟩
      (by decide) (by decide) (by decide) (by decide)).2 (str "abc") (str "135.7")
    (by decide) (by decide) (by decide) (by decide) (Or.inl (by decide))
